import Mathlib

/-!
Verification development for the memory/address-space core of the Arrow
randomized test-generation framework.

The development shallowly embeds the Python sources
`Arrow/Tool/memory_management/old_version/page_manager.py` and
`Arrow/Tool/memory_management/memory_operand.py`.  Collaborators that the
repository excerpt does not contain (the interval tracker `interval_lib`,
the `Page` and `MemoryBlock` value classes, the state manager and the
weighted-choice helper) are modelled from the specification and are marked
as such in their doc comments.

Python integers are embedded as `Int`.  Every random draw of the source is
embedded as an explicit `Nat` parameter interpreted modulo the number of
admissible outcomes, so each concrete parameter valuation corresponds to
one concrete run of the source and every run is covered by some valuation.
-/

/-- Python `random.randint(lo, hi)` (both ends inclusive): the draw is an
explicit pick reduced modulo the number of outcomes. -/
def randint (lo hi : Int) (pick : Nat) : Int :=
  lo + ((pick % (hi - lo + 1).toNat : Nat) : Int)

/-- Python floor `//` on a power-of-two also equals the bitmask rounding
`x & ~(a-1)` used in the source; `alignDown x a` is the largest multiple
of `a` not exceeding `x` (for `a > 0`). -/
def alignDown (x a : Int) : Int :=
  a * (Int.fdiv x a)

/-- Rounding up to a multiple of `a`, the source's
`(x + alignment - 1) & ~(alignment - 1)`. -/
def alignUp (x a : Int) : Int :=
  alignDown (x + a - 1) a

/-- Modelled from the spec: one tagged free span of an interval tracker
(`interval_lib.IntervalLib` is not part of the excerpt).  Metadata tags do
not influence any claim and are omitted. -/
structure MemInterval where
  start : Int
  size : Int
deriving DecidableEq, Repr

/-- An address is free in a pool iff some span of the pool contains it. -/
def freeAt (l : List MemInterval) (a : Int) : Bool :=
  l.any fun i => decide (i.start ≤ a) && decide (a < i.start + i.size)

/-- The spans of a pool are pairwise disjoint (the spec's tracker
invariant: intervals within one tracker never overlap). -/
def disjointB : List MemInterval → Bool
  | [] => true
  | i :: rest =>
      (rest.all fun j =>
        decide (i.start + i.size ≤ j.start) || decide (j.start + j.size ≤ i.start))
      && disjointB rest

/-- Modelled from the spec: `IntervalLib.remove_region(start, size)`
removes an already-decided exact range from the free pool and fails with
`RegionNotFree` when the range is not fully contained in a free span. -/
def removeRegion (l : List MemInterval) (start size : Int) : Except String (List MemInterval)
  :=
  match l with
  | [] => .error "RegionNotFree"
  | i :: rest =>
      if i.start ≤ start ∧ start + size ≤ i.start + i.size then
        .ok ((if i.start < start then [MemInterval.mk i.start (start - i.start)] else [])
          ++ (if start + size < i.start + i.size then
                [MemInterval.mk (start + size) (i.start + i.size - (start + size))] else [])
          ++ rest)
      else
        match removeRegion rest start size with
        | .error e => .error e
        | .ok rest' => .ok (i :: rest')

/-- Modelled from the spec: the feasible aligned start positions of a free
span for a request of `size` bytes — the first and last start addresses
that fit, mirroring the alignment arithmetic of the source's searches. -/
def alignedRange (i : MemInterval) (size : Int) (alignmentBits : Option Nat) :
    Option (Int × Int) :=
  match alignmentBits with
  | some b =>
      let al : Int := 2 ^ b
      let first := alignUp i.start al
      let lastPossible := i.start + i.size - size
      let last := alignDown lastPossible al
      if first ≤ last ∧ first + size ≤ i.start + i.size then some (first, last) else none
  | none =>
      if size ≤ i.size then some (i.start, i.start + i.size - size) else none

/-- Modelled from the spec: `IntervalLib.find_region(size, alignment_bits)`
picks a qualifying span at random and then an aligned start position at
random inside it; fails with `OutOfSpace` when no span qualifies. -/
def findRegion (l : List MemInterval) (size : Int) (alignmentBits : Option Nat)
    (r1 r2 : Nat) : Except String (Int × Int) :=
  let candidates := l.filterMap fun i => (alignedRange i size alignmentBits).map
    fun fl => (i, fl.1, fl.2)
  match candidates with
  | [] => .error "OutOfSpace"
  | c :: cs =>
      let chosen := (c :: cs).getD (r1 % (c :: cs).length) c
      let al : Int := match alignmentBits with
        | some b => 2 ^ b
        | none => 1
      let count := (Int.fdiv (chosen.2.2 - chosen.2.1) al + 1).toNat
      let start := chosen.2.1 + (r2 % count : Nat) * al
      .ok (start, size)

/-- Modelled from the spec: `IntervalLib.find_and_remove` atomically
performs `find_region` and then removes the chosen range. -/
def findAndRemove (l : List MemInterval) (size : Int) (alignmentBits : Option Nat)
    (r1 r2 : Nat) : Except String (Int × Int × List MemInterval) :=
  match findRegion l size alignmentBits r1 r2 with
  | .error e => .error e
  | .ok (start, sz) =>
      match removeRegion l start sz with
      | .error e => .error e
      | .ok l' => .ok (start, sz, l')

/-- Modelled from the spec: the collaborator weighted-choice walk — the
pick is reduced modulo the weight total and the cumulative weights are
walked front to back. -/
def choicePick : List (Int × Nat) → Nat → Int
  | [], _ => 0
  | (v, w) :: rest, i => if i < w then v else choicePick rest (i - w)

/-- Modelled from the spec: `choice.choice(values)` over a
value-to-relative-weight mapping with arbitrary weight totals. -/
def choiceW (l : List (Int × Nat)) (pick : Nat) : Int :=
  choicePick l (pick % (l.foldr (fun p acc => p.2 + acc) 0))

/-- Python dict-literal key semantics: a repeated key overwrites the
earlier entry in place (needed because the source builds a weight dict
whose randomized keys can collide). -/
def dictInsert (l : List (Int × Nat)) (k : Int) (v : Nat) : List (Int × Nat) :=
  if l.any fun p => p.1 = k then
    l.map fun p => if p.1 = k then (k, v) else p
  else
    l ++ [(k, v)]

/-- Build a Python dict literal from an ordered entry list. -/
def dictOf (l : List (Int × Nat)) : List (Int × Nat) :=
  l.foldl (fun acc p => dictInsert acc p.1 p.2) []

/-- Page types of `Configuration.Page_types`. -/
inductive PageType
  | code
  | data
  | device
  | system
deriving DecidableEq, Repr

/-- Page sizes of `Configuration.Page_sizes`. -/
inductive PageSize
  | S4K
  | S2M
  | S1G
deriving DecidableEq, Repr

/-- Byte value of a page-size class. -/
def PageSize.value : PageSize → Int
  | .S4K => 0x1000
  | .S2M => 0x200000
  | .S1G => 0x40000000

/-- Modelled from the spec: the permission bitset of a Page Record
(read / write / execute); the `Page` value class is not in the excerpt. -/
structure Perms where
  read : Bool
  write : Bool
  execute : Bool
deriving DecidableEq, Repr

/-- The source's `Page.PERM_READ | Page.PERM_WRITE | Page.PERM_EXECUTE`. -/
def Perms.rwx : Perms :=
  ⟨true, true, true⟩

/-- Modelled from the spec: cacheability attribute (`Page.CACHE_WB` is the
write-back constant used by the sources). -/
inductive Cacheable
  | wb
  | wt
  | nc
deriving DecidableEq, Repr

/-- Modelled from the spec: shareability attribute (`Page.SHARE_NONE` is
the non-shareable constant used by the sources). -/
inductive Shareable
  | shareNone
  | inner
  | outer
deriving DecidableEq, Repr

/-- Modelled from the spec: the immutable Page Record value. -/
structure Page where
  va : Int
  pa : Int
  size : Int
  page_type : PageType
  permissions : Perms
  cacheable : Cacheable
  shareable : Shareable
  execution_context : String
  custom_attributes : List (String × String)
  is_cross_core : Bool
deriving DecidableEq, Repr

/-- Modelled from the spec: `page.end_va`, the last address covered by the
page. -/
def Page.end_va (p : Page) : Int :=
  p.va + p.size - 1

/-- The per-type page index `page_table_entries_by_type` of one MMU. -/
structure ByType where
  code : List Page
  data : List Page
  device : List Page
  system : List Page
deriving DecidableEq, Repr

/-- Look up one type's list in the per-type index. -/
def ByType.get (bt : ByType) : PageType → List Page
  | .code => bt.code
  | .data => bt.data
  | .device => bt.device
  | .system => bt.system

/-- Append pages to one type's list of the per-type index. -/
def ByType.append (bt : ByType) (pt : PageType) (ps : List Page) : ByType :=
  match pt with
  | .code => { bt with code := bt.code ++ ps }
  | .data => { bt with data := bt.data ++ ps }
  | .device => { bt with device := bt.device ++ ps }
  | .system => { bt with system := bt.system ++ ps }

/-- The state of one `MMU` instance of `page_manager.py` that the claims
observe: its name, execution context, unmapped/mapped VA pools and page
collections. -/
structure MMUCtx where
  mmu_name : String
  execution_context : String
  unmapped : List MemInterval
  mapped : List (MemInterval × PageType)
  pages : List Page
  byType : ByType
deriving DecidableEq, Repr

/-- Modelled from the spec: `map_va_to_pa(context, va, pa, size,
page_type)` moves the already-removed VA range into the context's mapped
pool tagged with the page type (PA removal happened beforehand). -/
def mapVaToPa (mmu : MMUCtx) (va sz : Int) (pt : PageType) : MMUCtx :=
  { mmu with mapped := mmu.mapped ++ [(MemInterval.mk va sz, pt)] }

/-- `MMU.is_allocated(va_addr, size)` of `page_manager.py`, verbatim: the
loop returns true at the first page with `page.va <= va_end` and
`page.end_va >= va_addr`. -/
def is_allocated (pages : List Page) (va_addr size : Int) : Bool :=
  pages.any fun page =>
    decide (page.va ≤ va_addr + size - 1) && decide (page.end_va ≥ va_addr)

/-- Stated from the claim's words, for comparison with `is_allocated`: a
page covers the requested span when the whole of
`[va_addr, va_addr + size)` lies inside the page. -/
def coversSpan (page : Page) (va_addr size : Int) : Bool :=
  decide (page.va ≤ va_addr) && decide (va_addr + size - 1 ≤ page.end_va)

/-- One VA/PA intersection step of `_find_va_eq_pa_unmapped_region`: the
overlap of a free VA span and a free PA span, kept when it can host the
requested size. -/
def overlapRegion (v p : MemInterval) (sizeBytes : Int) : Option (Int × Int) :=
  let os := max v.start p.start
  let oe := min (v.start + v.size - 1) (p.start + p.size - 1)
  if os ≤ oe then
    if oe - os + 1 ≥ sizeBytes then some (os, oe - os + 1) else none
  else none

/-- The `matching_regions` list of `_find_va_eq_pa_unmapped_region`,
built over every (VA span, PA span) pair in source order. -/
def matchingRegions (vas pas : List MemInterval) (sizeBytes : Int) :
    List (Int × Int) :=
  vas.flatMap fun v => pas.filterMap fun p => overlapRegion v p sizeBytes

/-- The aligned-fit test of `_find_va_eq_pa_unmapped_region` on one
matching region: first/last aligned start addresses, kept when
`first_aligned <= last_aligned` and the aligned allocation fits. -/
def suitCheck (rs rsz sizeBytes : Int) (b : Nat) : Option (Int × Int) :=
  let al : Int := 2 ^ b
  let first := alignUp rs al
  let lastPossible := rs + rsz - sizeBytes
  let last := alignDown lastPossible al
  if first ≤ last ∧ first + sizeBytes ≤ rs + rsz then some (first, last) else none

/-- The `suitable_intervals` list of `_find_va_eq_pa_unmapped_region`:
with alignment, regions surviving the aligned-fit test; without, every
matching region. -/
def suitableIntervals (regions : List (Int × Int)) (sizeBytes : Int)
    (alignmentBits : Option Nat) : List ((Int × Int) × Int × Int) :=
  match alignmentBits with
  | some b =>
      regions.filterMap fun r => (suitCheck r.1 r.2 sizeBytes b).map fun fl => (r, fl.1, fl.2)
  | none =>
      regions.map fun r => (r, r.1, r.1 + r.2 - sizeBytes)

/-- `MMU._find_va_eq_pa_unmapped_region` of `page_manager.py`: intersects
the unmapped VA spans with the unmapped PA spans, filters by size and
aligned fit, randomizes the surviving interval and the aligned position,
and returns `(va_start, pa_start, size_bytes)` with `pa_start = va_start`. -/
def findVaEqPaUnmappedRegion (vas pas : List MemInterval) (sizeBytes : Int)
    (alignmentBits : Option Nat) (r1 r2 : Nat) : Except String (Int × Int × Int) :=
  match matchingRegions vas pas sizeBytes with
  | [] => .error "Could not find any unmapped region where VA=PA is possible"
  | m :: ms =>
      match suitableIntervals (m :: ms) sizeBytes alignmentBits with
      | [] => .error "Could not find any aligned unmapped region where VA=PA is possible"
      | s :: ss =>
          let chosen := (s :: ss).getD (r1 % (s :: ss).length) s
          let regionStart := chosen.1.1
          let regionSize := chosen.1.2
          let first := chosen.2.1
          let last := chosen.2.2
          let vaStart :=
            match alignmentBits with
            | some b =>
                if 0 < b then
                  let al : Int := 2 ^ b
                  if first ≠ last then
                    let count := (Int.fdiv (last - first) al + 1).toNat
                    first + ((r2 % count : Nat) : Int) * al
                  else first
                else randint regionStart (regionStart + regionSize - sizeBytes) r2
            | none => randint regionStart (regionStart + regionSize - sizeBytes) r2
          .ok (vaStart, vaStart, sizeBytes)

/-- The size validation prefix of `MMU.allocate_page`: a missing size is a
random choice between the 4 KiB and 2 MiB classes, a supplied size must be
one of those two. -/
def validateSize (s : Option PageSize) (pick : Nat) : Except String PageSize :=
  match s with
  | none => .ok (if pick % 2 = 0 then PageSize.S4K else PageSize.S2M)
  | some sz =>
      if sz = PageSize.S4K ∨ sz = PageSize.S2M then .ok sz
      else .error "Size must be 4KB or 2MB. 1GB is still not supported."

/-- The alignment resolution of `MMU.allocate_page`.  A missing value
defaults to the natural alignment of the class (the 1 GiB default branch
of the source compares the enum against a byte count and can never fire,
leaving the value unset); a supplied value below the natural alignment of
the class raises. -/
def resolveAlignmentBits (size : PageSize) (ab : Option Nat) :
    Except String (Option Nat) :=
  match ab with
  | none =>
      match size with
      | .S4K => .ok (some 12)
      | .S2M => .ok (some 21)
      | .S1G => .ok none
  | some a =>
      if size = PageSize.S4K ∧ a < 12 then
        .error "4KB page size requires at least 12-bit alignment."
      else if size = PageSize.S2M ∧ a < 21 then
        .error "2MB page size requires at least 21-bit alignment."
      else if size = PageSize.S1G ∧ a < 30 then
        .error "1GB page size requires at least 30-bit alignment."
      else .ok (some a)

/-- The keyword arguments of `MMU.allocate_page` with their Python
defaults. -/
structure PageArgs where
  size : Option PageSize := none
  alignment_bits : Option Nat := none
  page_type : Option PageType := none
  permissions : Option Perms := none
  cacheable : Option Cacheable := none
  shareable : Option Shareable := none
  custom_attributes : Option (List (String × String)) := none
  sequential_page_count : Nat := 1
  VA_eq_PA : Bool := false

/-- The random draws one `allocate_page` call can consume. -/
structure PageRand where
  sizePick : Nat := 0
  vaR1 : Nat := 0
  vaR2 : Nat := 0
  paR1 : Nat := 0
  paR2 : Nat := 0

/-- The `try` block of `MMU.allocate_page`: the identity path intersects
the two pools and removes the identical range from both; the ordinary path
carves VA and PA independently.  Both paths then bind via `map_va_to_pa`. -/
def allocRegions (mmu : MMUCtx) (paPool : List MemInterval) (vaEqPa : Bool)
    (fullSizeBytes : Int) (alignmentBits : Option Nat) (pageType : PageType)
    (r : PageRand) : Except String (Int × Int × MMUCtx × List MemInterval) :=
  if vaEqPa then
    match findVaEqPaUnmappedRegion mmu.unmapped paPool fullSizeBytes alignmentBits r.vaR1 r.vaR2 with
    | .error e => .error e
    | .ok (vaS, paS, sz) =>
        match removeRegion mmu.unmapped vaS sz with
        | .error e => .error e
        | .ok unmapped' =>
            match removeRegion paPool paS sz with
            | .error e => .error e
            | .ok paPool' =>
                .ok (vaS, paS, mapVaToPa { mmu with unmapped := unmapped' } vaS sz pageType, paPool')
  else
    match findAndRemove mmu.unmapped fullSizeBytes alignmentBits r.vaR1 r.vaR2 with
    | .error e => .error e
    | .ok (vaS, vaSz, unmapped') =>
        match findAndRemove paPool fullSizeBytes alignmentBits r.paR1 r.paR2 with
        | .error e => .error e
        | .ok (paS, _paSz, paPool') =>
            .ok (vaS, paS, mapVaToPa { mmu with unmapped := unmapped' } vaS vaSz pageType, paPool')

/-- The shape of `allocate_page`'s return value: a bare record for one
page, the ordered list otherwise. -/
inductive PageRet
  | single (p : Page)
  | multiple (ps : List Page)
deriving DecidableEq, Repr

/-- The pages carried by a return value. -/
def retPages : PageRet → List Page
  | .single p => [p]
  | .multiple ps => ps

/-- Everything one `allocate_page` call produces or mutates: the updated
MMU, the updated coordinator PA pool, and the returned page(s). -/
structure AllocPageResult where
  mmu : MMUCtx
  paPool : List MemInterval
  ret : PageRet
deriving DecidableEq, Repr

/-- The page built by iteration `i` of the creation loop of
`allocate_page`. -/
def mkPage (vaStart paStart sizeBytes : Int) (i : Nat) (pt : PageType)
    (perms : Perms) (c : Cacheable) (s : Shareable) (ec : String)
    (attrs : List (String × String)) : Page :=
  ⟨vaStart + (i : Int) * sizeBytes, paStart + (i : Int) * sizeBytes, sizeBytes,
    pt, perms, c, s, ec, attrs, false⟩

/-- The page-creation suffix of `allocate_page`: build the sequential
pages, append them to the page list and the per-type index, and shape the
return value. -/
def mkPagesResult (mmu1 : MMUCtx) (paPool1 : List MemInterval)
    (vaStart paStart sizeBytes : Int) (n : Nat) (pt : PageType) (perms : Perms)
    (c : Cacheable) (s : Shareable) (attrs : List (String × String)) :
    AllocPageResult :=
  let pages := (List.range n).map fun i =>
    mkPage vaStart paStart sizeBytes i pt perms c s mmu1.execution_context attrs
  let mmu2 := { mmu1 with
    pages := mmu1.pages ++ pages,
    byType := mmu1.byType.append pt pages }
  let ret := match n, pages with
    | 1, p :: _ => PageRet.single p
    | _, _ => PageRet.multiple pages
  ⟨mmu2, paPool1, ret⟩

/-- `MMU.allocate_page` of `page_manager.py` over one MMU context and the
coordinator's PA pool. -/
def allocatePage (mmu : MMUCtx) (paPool : List MemInterval) (args : PageArgs)
    (r : PageRand) : Except String AllocPageResult :=
  match validateSize args.size r.sizePick with
  | .error e => .error e
  | .ok size =>
      match resolveAlignmentBits size args.alignment_bits with
      | .error e => .error e
      | .ok alignmentBits =>
          match args.page_type with
          | none => .error "page_type is required"
          | some pageType =>
              let permissions := args.permissions.getD Perms.rwx
              let cacheable := args.cacheable.getD Cacheable.wb
              let shareable := args.shareable.getD Shareable.shareNone
              let customAttributes := args.custom_attributes.getD []
              let n := args.sequential_page_count
              let sizeBytes := size.value
              let fullSizeBytes := if 1 < n then sizeBytes * (n : Int) else sizeBytes
              match allocRegions mmu paPool args.VA_eq_PA fullSizeBytes alignmentBits pageType r with
              | .error _ => .error "Could not allocate memory regions"
              | .ok (vaStart, paStart, mmu1, paPool1) =>
                  .ok (mkPagesResult mmu1 paPool1 vaStart paStart sizeBytes n
                    pageType permissions cacheable shareable customAttributes)

/-- The whole simulated machine as `allocate_cross_core_page` sees it: the
state registry in `get_all_states` order with each state's MMUs, the
active state, and the coordinator's unmapped PA pool. -/
structure Machine where
  states : List (String × List MMUCtx)
  activeState : String
  paPool : List MemInterval
deriving DecidableEq, Repr

/-- Draw two picks off the explicit randomness stream (missing entries
default to zero). -/
def draw2 : List Nat → Nat × Nat × List Nat
  | a :: b :: t => (a, b, t)
  | [a] => (a, 0, [])
  | [] => (0, 0, [])

/-- The cross-core page built for one MMU by `allocate_cross_core_page`
(the fixed policy of the source: 2 MiB, data, RWX, write-back,
non-shareable, cross-core). -/
def mkCrossPage (vaStart paStart : Int) (ec : String) : Page :=
  ⟨vaStart, paStart, 0x200000, PageType.data, Perms.rwx, Cacheable.wb,
    Shareable.shareNone, ec, [], true⟩

/-- The inner loop of `allocate_cross_core_page` over one state's MMUs:
carve a VA range from each MMU's own unmapped pool, bind it to the common
PA, record the cross-core page.  On failure the already-performed
mutations are kept and the remaining MMUs are untouched. -/
def crossLoopMMUs (paStart : Int) : List MMUCtx → List Nat →
    List MMUCtx × List Nat × Option String
  | [], rs => ([], rs, none)
  | mmu :: rest, rs =>
      let (r1, r2, rs1) := draw2 rs
      match findAndRemove mmu.unmapped 0x200000 (some 21) r1 r2 with
      | .error e => (mmu :: rest, rs1, some e)
      | .ok (vaStart, vaSize, unmapped') =>
          let mmu1 := mapVaToPa { mmu with unmapped := unmapped' } vaStart vaSize PageType.data
          let page := mkCrossPage vaStart paStart mmu.execution_context
          let mmu2 := { mmu1 with
            pages := mmu1.pages ++ [page],
            byType := mmu1.byType.append PageType.data [page] }
          match crossLoopMMUs paStart rest rs1 with
          | (rest', rs2, err) => (mmu2 :: rest', rs2, err)

/-- The outer loop of `allocate_cross_core_page` over all states: each
iteration first makes its state active; a failure stops the loop with the
failing state left active. -/
def crossLoopStates (paStart : Int) (active : String) :
    List (String × List MMUCtx) → List Nat →
    List (String × List MMUCtx) × String × List Nat × Option String
  | [], rs => ([], active, rs, none)
  | (stateName, mmus) :: rest, rs =>
      match crossLoopMMUs paStart mmus rs with
      | (mmus', rs1, some e) => ((stateName, mmus') :: rest, stateName, rs1, some e)
      | (mmus', rs1, none) =>
          match crossLoopStates paStart stateName rest rs1 with
          | (rest', active', rs2, err) => ((stateName, mmus') :: rest', active', rs2, err)

/-- `MMU.allocate_cross_core_page` of `page_manager.py`.  The result pairs
the machine after the call with the raised error, if any: the source
restores the originally active state only on the in-`try` success path,
so a failure inside the per-state loop leaves the failing state active. -/
def allocateCrossCorePage (m : Machine) (rs : List Nat) : Machine × Option String :=
  let (pr1, pr2, rs0) := draw2 rs
  match findAndRemove m.paPool 0x200000 (some 21) pr1 pr2 with
  | .error _ => (m, some "Could not allocate memory regions")
  | .ok (paStart, _paSize, paPool') =>
      match crossLoopStates paStart m.activeState m.states rs0 with
      | (states', _active', _rs1, none) =>
          ({ states := states', activeState := m.activeState, paPool := paPool' }, none)
      | (states', active', _rs1, some _) =>
          ({ states := states', activeState := active', paPool := paPool' },
            some "Could not allocate memory regions")

/-- Modelled from the spec: the Allocation Block value (`MemoryBlock` is
not part of the excerpt).  Address and PA address are the allocator's
results; `get_label()` returns the name because the operand layer always
constructs blocks with `_use_name_as_unique_label=True`. -/
structure MemoryBlock where
  name : String
  byte_size : Int
  address : Int
  pa_address : Int
  memory_type : String
  shared : Bool
  cross_core : Bool
  alignment : Int
  init_value : Option Int
deriving DecidableEq, Repr

/-- The keyword arguments of `Memory.__init__` with their Python
defaults. -/
structure MemArgs where
  name : Option String := none
  address : Option Int := none
  byte_size : Option Int := some 8
  memory_type : String := "WB"
  shared : Bool := false
  init_value : Option Int := none
  memory_block : Option MemoryBlock := none
  memory_block_offset : Option Int := none
  cross_core : Bool := false
  alignment : Option Int := none

/-- The collaborator answers and random draws one `Memory.__init__` call
can consume: the execution platform knob, the unique-id counter, the
byte-size and alignment draws, the reuse draw, the shared-block lookup
result and the offset/extension draws, and the addresses the block
allocator hands back. -/
structure MemEnv where
  execution_platform : String := "linked_elf"
  seedId : Nat := 0
  byteSizePick : Nat := 0
  alignPick : Nat := 0
  reusePick : Nat := 0
  usedBlock : Option MemoryBlock := none
  reuseOffPick : Nat := 0
  extPick : Nat := 0
  extR1Pick : Nat := 0
  extR2Pick : Nat := 0
  newOffPick : Nat := 0
  newBlockAddress : Int := 0
  newBlockPaAddress : Int := 0

/-- The fields of a successfully constructed `Memory` operand that the
claims observe. -/
structure MemoryState where
  name : String
  unique_label : String
  byte_size : Int
  shared : Bool
  memory_type : String
  init_value : Option Int
  memory_block : MemoryBlock
  memory_block_offset : Int
  cross_core : Bool
  alignment : Int
  reused_memory : Bool
  address : Int
  pa_address : Int
deriving DecidableEq, Repr

/-- The source's `rand_num = random.randint(0, 100)`: 101 equally likely
outcomes. -/
def reuseDraw (pick : Nat) : Nat :=
  pick % 101

/-- The source's `should_reuse = True if (rand_num < reuse_memory_probability) else False`
with the hard-coded `reuse_memory_probability = 50`. -/
def shouldReuse (randNum : Nat) : Bool :=
  randNum < 50

/-- The offset chosen inside a reused shared block (`Memory.__init__`,
reuse branch): with alignment above one, the first address aligned from
the block base fixes the minimal offset and a random aligned position is
added; otherwise a plain random offset. -/
def reuseOffsetCalc (blk : MemoryBlock) (bs alignment : Int) (pick : Nat) : Int :=
  let maxOffset := blk.byte_size - bs
  if alignment > 1 then
    let blockBaseAddr := blk.address
    let firstAlignedAddr := (Int.fdiv (blockBaseAddr + alignment - 1) alignment) * alignment
    let minOffset := firstAlignedAddr - blockBaseAddr
    if minOffset + bs ≤ maxOffset + bs then
      let remainingSpace := (maxOffset + bs) - (minOffset + bs)
      let additionalPositions := Int.fdiv remainingSpace alignment
      if additionalPositions > 0 then
        let chosenPosition := randint 0 additionalPositions pick
        minOffset + chosenPosition * alignment
      else
        minOffset
    else
      0
  else
    if maxOffset > 0 then randint 0 maxOffset pick else 0

/-- The offset chosen inside a freshly allocated shared block with slack
(`Memory.__init__`, new-shared branch). -/
def newSharedOffsetCalc (maxOffset alignment : Int) (pick : Nat) : Int :=
  if alignment > 1 then
    let maxAlignedPositions := Int.fdiv maxOffset alignment
    if maxAlignedPositions > 0 then
      let alignedPosition := randint 0 maxAlignedPositions pick
      alignedPosition * alignment
    else
      0
  else
    randint 0 maxOffset pick

/-- The randomized byte-size slack of the new-shared branch: the source's
`choice.choice(values={0:50, random.randint(1, 10):45, random.randint(10, 20):5})`,
with Python dict-literal key-collision semantics. -/
def byteSizeExtension (env : MemEnv) : Int :=
  let r1 := randint 1 10 env.extR1Pick
  let r2 := randint 10 20 env.extR2Pick
  choiceW (dictOf [(0, 50), (r1, 45), (r2, 5)]) env.extPick

/-- The alignment draw of `Memory.__init__` when the caller supplied
none: `choice.choice(values={0:10, 1:30, 2:60})`. -/
def alignmentDraw (pick : Nat) : Int :=
  choiceW [(0, 10), (1, 30), (2, 60)] pick

/-- The byte-size validation of `Memory.__init__`: a missing size is a
uniform choice from `VALID_SIZES = [1, 2, 4, 8]`, an invalid one raises. -/
def validByteSize (bs : Option Int) (pick : Nat) : Except String Int :=
  match bs with
  | none => .ok ([1, 2, 4, 8].getD (pick % 4) 1)
  | some b =>
      if b = 1 ∨ b = 2 ∨ b = 4 ∨ b = 8 then .ok b
      else .error "Invalid memory byte size."

/-- The common tail of `Memory.__init__`: the effective addresses are the
block address plus the offset, and the cross-core flag is re-read off the
block. -/
def finishMemory (name uniqueLabel : String) (bs : Int) (shared : Bool)
    (memType : String) (initValue : Option Int) (blk : MemoryBlock)
    (offset alignment : Int) (reused : Bool) : MemoryState :=
  { name := name
    unique_label := uniqueLabel
    byte_size := bs
    shared := shared
    memory_type := memType
    init_value := initValue
    memory_block := blk
    memory_block_offset := offset
    cross_core := blk.cross_core
    alignment := alignment
    reused_memory := reused
    address := blk.address + offset
    pa_address := blk.pa_address + offset }

/-- The new-shared-block branch of `Memory.__init__`: allocate a block
with randomized slack and choose a random (aligned) offset inside the
slack. -/
def newSharedPath (name uniqueLabel : String) (bs : Int) (args : MemArgs)
    (env : MemEnv) (alignment : Int) : MemoryState :=
  let ext := byteSizeExtension env
  let newByteSize := bs + ext
  let blk : MemoryBlock :=
    ⟨uniqueLabel, newByteSize, env.newBlockAddress, env.newBlockPaAddress,
      args.memory_type, args.shared, false, alignment, args.init_value⟩
  let maxOffset := newByteSize - bs
  let offset := newSharedOffsetCalc maxOffset alignment env.newOffPick
  finishMemory name uniqueLabel bs args.shared args.memory_type args.init_value
    blk offset alignment false

/-- The generated operand name: the caller's name, else an id-stamped
fresh one. -/
def memName (n : Option String) (seedId : Nat) : String :=
  match n with
  | some s => s
  | none => "mem" ++ toString seedId

/-- The generated unique label: the name itself for fresh names, the
caller's name stamped with the id otherwise. -/
def memUniqueLabel (n : Option String) (seedId : Nat) : String :=
  match n with
  | none => memName n seedId
  | some s => s ++ "_mem" ++ toString seedId

/-- The effective alignment: the caller's value, else the weighted draw. -/
def memAlignment (a : Option Int) (pick : Nat) : Int :=
  match a with
  | none => alignmentDraw pick
  | some v => v

/-- The operand name when an explicit block is supplied: the block's name
unless the caller named the operand. -/
def memBlockName (n : Option String) (blk : MemoryBlock) (seedId : Nat) : String :=
  match n with
  | none => blk.name
  | some _ => memName n seedId

/-- `Memory.__init__` of `memory_operand.py`, in source order: the
input-checking block (address rejection, explicit-block validation, the
shared/init and shared/cross-core exclusions, byte-size validation,
alignment draw) followed by the allocation paths (reuse of a shared
block, new shared block with slack, new exclusive block, or the
explicitly supplied block). -/
def memoryInit (args : MemArgs) (env : MemEnv) : Except String MemoryState :=
  let seedId := env.seedId + 1
  let name0 := memName args.name seedId
  let uniqueLabel0 := memUniqueLabel args.name seedId
  if args.address.isSome then
    if env.execution_platform ≠ "baremetal" then
      .error "Memory with address constraints is not supported in this execution platform."
    else
      .error "Memory with address constraints is not yet implemented."
  else
  match args.memory_block with
  | none =>
      if args.memory_block_offset.isSome then
        .error "Memory_block_offset can't be provided without memory_block."
      else
      if args.init_value.isSome ∧ args.shared then
        .error "Can't initialize value in a shared memory"
      else
      if args.cross_core ∧ args.shared then
        .error "Cross-core memory can't be shared"
      else
      match validByteSize args.byte_size env.byteSizePick with
      | .error e => .error e
      | .ok bs =>
          let alignment := memAlignment args.alignment env.alignPick
          if args.shared then
            let randNum := reuseDraw env.reusePick
            let should := shouldReuse randNum
            if should ∧ args.name = none ∧ args.address = none ∧ args.init_value = none then
              match env.usedBlock with
              | some blk =>
                  if bs > blk.byte_size then
                    .error "Inner block size cannot exceed outer block size."
                  else
                    let offset := reuseOffsetCalc blk bs alignment env.reuseOffPick
                    .ok (finishMemory name0 uniqueLabel0 bs true args.memory_type
                      args.init_value blk offset alignment true)
              | none =>
                  .ok (newSharedPath name0 uniqueLabel0 bs args env alignment)
            else
              .ok (newSharedPath name0 uniqueLabel0 bs args env alignment)
          else
            let blk : MemoryBlock :=
              ⟨uniqueLabel0, bs, env.newBlockAddress, env.newBlockPaAddress,
                args.memory_type, false, args.cross_core, alignment, args.init_value⟩
            .ok (finishMemory name0 blk.name bs false args.memory_type
              args.init_value blk 0 alignment false)
  | some blk =>
      if args.memory_block_offset.isNone then
        .error "Memory_block_offset must be provided with memory_block."
      else
      if args.init_value.isSome then
        .error "Memory.init_value can't be provided when using a memory_block."
      else
      match args.byte_size with
      | none => .error "TypeError: byte_size comparison with None"
      | some bs0 =>
          let offset := args.memory_block_offset.getD 0
          if bs0 > blk.byte_size then
            .error "Memory.byte_size cannot exceed MemoryBlock byte_size."
          else
          if offset < 0 then
            .error "Memory.memory_block_offset cannot be negative."
          else
          if offset + bs0 > blk.byte_size then
            .error "Memory byte_size + offset cannot exceed MemoryBlock byte_size."
          else
          if args.init_value.isSome ∧ args.shared then
            .error "Can't initialize value in a shared memory"
          else
          if args.cross_core ∧ args.shared then
            .error "Cross-core memory can't be shared"
          else
          match validByteSize (some bs0) env.byteSizePick with
          | .error e => .error e
          | .ok bs =>
              let alignment := memAlignment args.alignment env.alignPick
              let name1 := memBlockName args.name blk seedId
              .ok (finishMemory name1 blk.name bs args.shared blk.memory_type
                args.init_value blk offset alignment false)

theorem le_randint (lo hi : Int) (pick : Nat) : lo ≤ randint lo hi pick := by
  unfold randint
  have : (0 : Int) ≤ ((pick % (hi - lo + 1).toNat : Nat) : Int) := Int.ofNat_nonneg _
  omega

theorem randint_le {lo hi : Int} (pick : Nat) (h : lo ≤ hi) : randint lo hi pick ≤ hi := by
  unfold randint
  have h0 : 0 < (hi - lo + 1).toNat := by omega
  have h1 := Nat.mod_lt pick h0
  have h2 : ((pick % (hi - lo + 1).toNat : Nat) : Int) < ((hi - lo + 1).toNat : Int) :=
    Int.ofNat_lt.mpr h1
  omega

theorem mul_fdiv_le {a : Int} (x : Int) (ha : 0 < a) : a * Int.fdiv x a ≤ x := by
  have h1 := Int.fdiv_add_fmod x a
  have h2 := Int.fmod_nonneg' x ha
  omega

theorem lt_mul_fdiv_add {a : Int} (x : Int) (ha : 0 < a) : x < a * Int.fdiv x a + a := by
  have h1 := Int.fdiv_add_fmod x a
  have h2 := Int.fmod_lt_of_pos x ha
  omega

theorem alignDown_le {a : Int} (x : Int) (ha : 0 < a) : alignDown x a ≤ x :=
  mul_fdiv_le x ha

theorem lt_alignDown_add {a : Int} (x : Int) (ha : 0 < a) : x < alignDown x a + a :=
  lt_mul_fdiv_add x ha

theorem le_alignUp {a : Int} (x : Int) (ha : 0 < a) : x ≤ alignUp x a := by
  unfold alignUp
  have := lt_alignDown_add (x + a - 1) ha
  omega

theorem alignUp_le {a : Int} (x : Int) (ha : 0 < a) : alignUp x a ≤ x + a - 1 := by
  unfold alignUp
  exact alignDown_le (x + a - 1) ha

theorem freeAt_iff (l : List MemInterval) (a : Int) :
    freeAt l a = true ↔ ∃ i ∈ l, i.start ≤ a ∧ a < i.start + i.size := by
  unfold freeAt
  rw [List.any_eq_true]
  constructor
  · rintro ⟨i, hm, hc⟩
    simp only [Bool.and_eq_true, decide_eq_true_eq] at hc
    exact ⟨i, hm, hc⟩
  · rintro ⟨i, hm, h1, h2⟩
    exact ⟨i, hm, by simp only [Bool.and_eq_true, decide_eq_true_eq]; exact ⟨h1, h2⟩⟩

theorem disjointB_iff (l : List MemInterval) :
    disjointB l = true ↔ List.Pairwise
      (fun i j : MemInterval => i.start + i.size ≤ j.start ∨ j.start + j.size ≤ i.start) l := by
  induction l with
  | nil => simp [disjointB]
  | cons i rest ih =>
      rw [List.pairwise_cons]
      unfold disjointB
      rw [Bool.and_eq_true, List.all_eq_true, ← ih]
      constructor
      · rintro ⟨h1, h2⟩
        refine ⟨fun j hj => ?_, h2⟩
        have := h1 j hj
        simp only [Bool.or_eq_true, decide_eq_true_eq] at this
        exact this
      · rintro ⟨h1, h2⟩
        refine ⟨fun j hj => ?_, h2⟩
        simp only [Bool.or_eq_true, decide_eq_true_eq]
        exact h1 j hj

theorem removeRegion_contained {l : List MemInterval} {start size : Int} {l' : List MemInterval}
    (h : removeRegion l start size = .ok l') :
    ∃ j ∈ l, j.start ≤ start ∧ start + size ≤ j.start + j.size := by
  induction l generalizing l' with
  | nil => simp [removeRegion] at h
  | cons i rest ih =>
      unfold removeRegion at h
      split at h
      · rename_i hc
        exact ⟨i, List.mem_cons_self i rest, hc⟩
      · revert h
        split
        · intro h; cases h
        · rename_i rest' hrest
          intro h
          obtain ⟨j, hj, hcond⟩ := ih hrest
          exact ⟨j, List.mem_cons_of_mem i hj, hcond⟩

theorem removeRegion_not_free {l : List MemInterval} {start size : Int} {l' : List MemInterval}
    (hd : disjointB l = true) (h : removeRegion l start size = .ok l') :
    ∀ a : Int, start ≤ a → a < start + size → freeAt l' a = false := by
  induction l generalizing l' with
  | nil => simp [removeRegion] at h
  | cons i rest ih =>
      intro a ha1 ha2
      unfold disjointB at hd
      rw [Bool.and_eq_true, List.all_eq_true] at hd
      obtain ⟨hd1, hd2⟩ := hd
      unfold removeRegion at h
      split at h
      · rename_i hc
        cases h
        rw [Bool.eq_false_iff]
        intro hfree
        rw [freeAt_iff] at hfree
        obtain ⟨j, hjm, hj1, hj2⟩ := hfree
        rw [List.mem_append, List.mem_append] at hjm
        rcases hjm with (hjm | hjm) | hjm
        · split at hjm <;> simp at hjm
          subst hjm; simp at hj1 hj2; omega
        · split at hjm <;> simp at hjm
          subst hjm; simp at hj1 hj2; omega
        · have := hd1 j hjm
          simp only [Bool.or_eq_true, decide_eq_true_eq] at this
          omega
      · revert h
        split
        · intro h; cases h
        · rename_i rest' hrest
          intro h
          cases h
          rw [Bool.eq_false_iff]
          intro hfree
          rw [freeAt_iff] at hfree
          obtain ⟨j, hjm, hj1, hj2⟩ := hfree
          rcases List.mem_cons.mp hjm with hj | hj
          · subst hj
            obtain ⟨k, hkm, hk1, hk2⟩ := removeRegion_contained hrest
            have := hd1 k hkm
            simp only [Bool.or_eq_true, decide_eq_true_eq] at this
            omega
          · have := ih hd2 hrest a ha1 ha2
            rw [Bool.eq_false_iff] at this
            exact this (by rw [freeAt_iff]; exact ⟨j, hj, hj1, hj2⟩)

theorem alignedRange_some {i : MemInterval} {size : Int} {ab : Option Nat} {first last : Int}
    (h : alignedRange i size ab = some (first, last)) :
    i.start ≤ first ∧ last ≤ i.start + i.size - size ∧ first ≤ last := by
  cases ab with
  | none =>
      simp only [alignedRange] at h
      split at h
      · injection h with h1
        injection h1 with ha hb
        subst ha; subst hb
        exact ⟨le_refl _, by omega, by rename_i hsz; omega⟩
      · cases h
  | some b =>
      simp only [alignedRange] at h
      split at h
      · rename_i hguard
        injection h with h1
        injection h1 with ha hb
        subst ha; subst hb
        have hal : (0 : Int) < 2 ^ b := by positivity
        obtain ⟨hg1, hg2⟩ := hguard
        refine ⟨le_alignUp i.start hal, ?_, hg1⟩
        have := alignDown_le (i.start + i.size - size) hal
        omega
      · cases h

theorem getD_head_mem {α : Type} (c : α) (cs : List α) (n : Nat) :
    (c :: cs).getD n c ∈ c :: cs := by
  rw [List.getD_eq_getElem?_getD]
  rcases Nat.lt_or_ge n (c :: cs).length with h | h
  · rw [List.getElem?_eq_getElem h]
    simp only [Option.getD_some]
    exact List.getElem_mem _
  · rw [List.getElem?_eq_none h]
    exact List.mem_cons_self _ _

theorem cast_step_le {d al : Int} (hal : 0 < al) (hd : 0 ≤ d) (k : Nat)
    (hk : k < (Int.fdiv d al + 1).toNat) : ((k : Int)) * al ≤ d := by
  have hnn : 0 ≤ Int.fdiv d al := Int.fdiv_nonneg hd (le_of_lt hal)
  have h1 : ((k : Int)) ≤ Int.fdiv d al := by omega
  calc ((k : Int)) * al ≤ Int.fdiv d al * al :=
        mul_le_mul_of_nonneg_right h1 (le_of_lt hal)
    _ = al * Int.fdiv d al := mul_comm _ _
    _ ≤ d := mul_fdiv_le d hal

theorem findRegion_ok {l : List MemInterval} {size : Int} {ab : Option Nat} {r1 r2 : Nat}
    {s sz : Int} (h : findRegion l size ab r1 r2 = .ok (s, sz)) :
    sz = size ∧ ∃ i ∈ l, i.start ≤ s ∧ s + size ≤ i.start + i.size := by
  unfold findRegion at h
  rcases hcand : l.filterMap (fun i => (alignedRange i size ab).map fun fl => (i, fl.1, fl.2))
    with _ | ⟨c, cs⟩
  · rw [hcand] at h; simp at h
  · rw [hcand] at h
    simp only [] at h
    have hmem : (c :: cs).getD (r1 % (c :: cs).length) c ∈ c :: cs := getD_head_mem c cs _
    rw [← hcand] at hmem
    obtain ⟨i, hil, hmap⟩ := List.mem_filterMap.mp hmem
    obtain ⟨fl, halr, hfl⟩ := Option.map_eq_some'.mp hmap
    rw [hcand] at hfl
    rw [← hfl] at h
    simp only [] at h
    injection h with h1
    have hs := congrArg Prod.fst h1
    have hsz := congrArg Prod.snd h1
    simp only [] at hs hsz
    obtain ⟨hb1, hb2, hb3⟩ := alignedRange_some halr
    refine ⟨hsz.symm, i, hil, ?_⟩
    have hd : 0 ≤ fl.2 - fl.1 := by omega
    cases ab with
    | none =>
        simp only [Int.fdiv_one, mul_one] at hs
        have ht : 0 < (fl.2 - fl.1 + 1).toNat := by omega
        have hlt := Nat.mod_lt r2 ht
        omega
    | some b =>
        simp only [] at hs
        have hal : (0 : Int) < 2 ^ b := by positivity
        have hcnt : 0 < (Int.fdiv (fl.2 - fl.1) ((2:Int) ^ b) + 1).toNat := by
          have := Int.fdiv_nonneg hd (le_of_lt hal)
          omega
        have hk := cast_step_le hal hd
          (r2 % (Int.fdiv (fl.2 - fl.1) ((2:Int) ^ b) + 1).toNat) (Nat.mod_lt r2 hcnt)
        have hnn : (0:Int) ≤
            ((r2 % (Int.fdiv (fl.2 - fl.1) ((2:Int) ^ b) + 1).toNat : Nat) : Int) * (2:Int) ^ b :=
          mul_nonneg (Int.ofNat_nonneg _) (le_of_lt hal)
        omega

theorem findAndRemove_ok {l : List MemInterval} {size : Int} {ab : Option Nat} {r1 r2 : Nat}
    {s sz : Int} {l2 : List MemInterval}
    (h : findAndRemove l size ab r1 r2 = .ok (s, sz, l2)) :
    sz = size ∧
    (∀ a : Int, s ≤ a → a < s + size → freeAt l a = true) ∧
    (disjointB l = true → ∀ a : Int, s ≤ a → a < s + size → freeAt l2 a = false) := by
  unfold findAndRemove at h
  split at h
  · cases h
  · rename_i start sz0 hfr
    split at h
    · cases h
    · rename_i l3 hrr
      injection h with h1
      injection h1 with hstart h2
      injection h2 with hsz hl
      subst hstart; subst hsz; subst hl
      obtain ⟨hszeq, i, hil, hi1, hi2⟩ := findRegion_ok hfr
      subst hszeq
      refine ⟨rfl, ?_, ?_⟩
      · intro a ha1 ha2
        rw [freeAt_iff]
        exact ⟨i, hil, by omega⟩
      · intro hd a ha1 ha2
        exact removeRegion_not_free hd hrr a ha1 ha2

theorem fdivMul_le (x al : Int) (hal : 0 < al) : (Int.fdiv x al) * al ≤ x := by
  have h1 := Int.fdiv_add_fmod x al
  have h2 := Int.fmod_nonneg' x hal
  linarith [mul_comm (Int.fdiv x al) al]

theorem lt_fdivMul_add (x al : Int) (hal : 0 < al) : x < (Int.fdiv x al) * al + al := by
  have h1 := Int.fdiv_add_fmod x al
  have h2 := Int.fmod_lt_of_pos x hal
  linarith [mul_comm (Int.fdiv x al) al]

theorem validByteSize_pos {b : Option Int} {pick : Nat} {bs : Int}
    (h : validByteSize b pick = .ok bs) : 1 ≤ bs := by
  cases b with
  | none =>
      unfold validByteSize at h
      dsimp only at h
      injection h with h1
      subst h1
      rcases (by omega : pick % 4 = 0 ∨ pick % 4 = 1 ∨ pick % 4 = 2 ∨ pick % 4 = 3)
        with h|h|h|h <;> rw [h] <;> decide
  | some v =>
      unfold validByteSize at h
      dsimp only at h
      split at h
      · injection h with h1
        subst h1
        rename_i hse
        rcases hse with h|h|h|h <;> omega
      · cases h

theorem validByteSize_some {b : Int} {pick : Nat} {bs : Int}
    (h : validByteSize (some b) pick = .ok bs) : bs = b := by
  unfold validByteSize at h
  dsimp only at h
  split at h
  · injection h with h1; exact h1.symm
  · cases h

theorem reuseOffsetCalc_bounds (blk : MemoryBlock) (bs al : Int) (pick : Nat)
    (_hbs : 0 ≤ bs) (hle : bs ≤ blk.byte_size) :
    0 ≤ reuseOffsetCalc blk bs al pick ∧
    reuseOffsetCalc blk bs al pick + bs ≤ blk.byte_size := by
  unfold reuseOffsetCalc
  dsimp only
  split
  · rename_i hal
    have hal0 : (0 : Int) < al := by omega
    have hmin : blk.address ≤ (blk.address + al - 1).fdiv al * al := by
      have := lt_fdivMul_add (blk.address + al - 1) al hal0
      linarith
    split
    · rename_i hcond
      split
      · rename_i hpos
        constructor
        · have h1 := le_randint 0 ((blk.byte_size - bs + bs -
            ((blk.address + al - 1).fdiv al * al - blk.address + bs)).fdiv al) pick
          have h2 : 0 ≤ randint 0 ((blk.byte_size - bs + bs -
              ((blk.address + al - 1).fdiv al * al - blk.address + bs)).fdiv al) pick * al :=
            mul_nonneg h1 (le_of_lt hal0)
          linarith
        · have h1 : (0:Int) ≤ (blk.byte_size - bs + bs -
              ((blk.address + al - 1).fdiv al * al - blk.address + bs)).fdiv al := by
            linarith
          have h2 := randint_le pick h1
          have h3 : randint 0 ((blk.byte_size - bs + bs -
              ((blk.address + al - 1).fdiv al * al - blk.address + bs)).fdiv al) pick * al ≤
              ((blk.byte_size - bs + bs -
              ((blk.address + al - 1).fdiv al * al - blk.address + bs)).fdiv al) * al :=
            mul_le_mul_of_nonneg_right h2 (le_of_lt hal0)
          have h4 := fdivMul_le (blk.byte_size - bs + bs -
            ((blk.address + al - 1).fdiv al * al - blk.address + bs)) al hal0
          linarith
      · rename_i hpos
        constructor <;> linarith
    · rename_i hcond
      constructor <;> linarith
  · rename_i hal
    split
    · rename_i hmax
      have h1 := le_randint 0 (blk.byte_size - bs) pick
      have h2 := randint_le pick (by linarith : (0:Int) ≤ blk.byte_size - bs)
      constructor <;> linarith
    · constructor <;> linarith

theorem newSharedOffsetCalc_bounds (mo al : Int) (pick : Nat) (hmo : 0 ≤ mo) :
    0 ≤ newSharedOffsetCalc mo al pick ∧ newSharedOffsetCalc mo al pick ≤ mo := by
  unfold newSharedOffsetCalc
  dsimp only
  split
  · rename_i hal
    have hal0 : (0:Int) < al := by omega
    split
    · rename_i hpos
      have h1 := le_randint 0 (mo.fdiv al) pick
      have h2 := randint_le pick (by linarith : (0:Int) ≤ mo.fdiv al)
      have h3 : randint 0 (mo.fdiv al) pick * al ≤ (mo.fdiv al) * al :=
        mul_le_mul_of_nonneg_right h2 (le_of_lt hal0)
      have h4 := fdivMul_le mo al hal0
      have h5 : 0 ≤ randint 0 (mo.fdiv al) pick * al := mul_nonneg h1 (le_of_lt hal0)
      constructor <;> linarith
    · constructor <;> linarith
  · have h1 := le_randint 0 mo pick
    have h2 := randint_le pick hmo
    constructor <;> linarith

theorem newSharedOffsetCalc_dvd (mo al : Int) (pick : Nat) (hal : 1 < al) :
    al ∣ newSharedOffsetCalc mo al pick := by
  unfold newSharedOffsetCalc
  dsimp only
  rw [if_pos hal]
  split
  · exact dvd_mul_left al _
  · exact dvd_zero al

theorem choicePick_cases (l : List (Int × Nat)) (i : Nat) :
    choicePick l i = 0 ∨ ∃ p ∈ l, choicePick l i = p.1 := by
  induction l generalizing i with
  | nil => left; rfl
  | cons p rest ih =>
      obtain ⟨v, w⟩ := p
      unfold choicePick
      split
      · right; exact ⟨(v, w), List.mem_cons_self _ _, rfl⟩
      · rcases ih (i - w) with h | ⟨q, hq, heq⟩
        · left; exact h
        · right; exact ⟨q, List.mem_cons_of_mem _ hq, heq⟩

theorem dictInsert_keys {l : List (Int × Nat)} {k : Int} {v : Nat} {p : Int × Nat}
    (hp : p ∈ dictInsert l k v) : p.1 = k ∨ ∃ q ∈ l, p.1 = q.1 := by
  unfold dictInsert at hp
  split at hp
  · obtain ⟨q, hq, heq⟩ := List.mem_map.mp hp
    split at heq
    · left; rw [← heq]
    · right; exact ⟨q, hq, by rw [← heq]⟩
  · rw [List.mem_append] at hp
    rcases hp with h | h
    · right; exact ⟨p, h, rfl⟩
    · left
      have : p = (k, v) := by simpa using h
      rw [this]

theorem foldl_dictInsert_keys (l : List (Int × Nat)) :
    ∀ (acc : List (Int × Nat)) (p : Int × Nat),
      p ∈ l.foldl (fun a q => dictInsert a q.1 q.2) acc →
      (∃ q ∈ acc, p.1 = q.1) ∨ ∃ q ∈ l, p.1 = q.1 := by
  induction l with
  | nil => intro acc p hp; left; exact ⟨p, hp, rfl⟩
  | cons r rest ih =>
      intro acc p hp
      simp only [List.foldl] at hp
      rcases ih _ p hp with hacc | hrest
      · obtain ⟨q, hq, heq⟩ := hacc
        rcases dictInsert_keys hq with hk | ⟨q2, hq2, heq2⟩
        · right; exact ⟨r, List.mem_cons_self _ _, by rw [heq, hk]⟩
        · left; exact ⟨q2, hq2, by rw [heq, heq2]⟩
      · right
        obtain ⟨q, hq, heq⟩ := hrest
        exact ⟨q, List.mem_cons_of_mem _ hq, heq⟩

theorem byteSizeExtension_nonneg (env : MemEnv) : 0 ≤ byteSizeExtension env := by
  unfold byteSizeExtension choiceW dictOf
  rcases choicePick_cases ([(0, 50), (randint 1 10 env.extR1Pick, 45),
      (randint 10 20 env.extR2Pick, 5)].foldl (fun a q => dictInsert a q.1 q.2) [])
      (env.extPick % (([(0, 50), (randint 1 10 env.extR1Pick, 45),
      (randint 10 20 env.extR2Pick, 5)].foldl (fun a q => dictInsert a q.1 q.2) []).foldr
        (fun p acc => p.2 + acc) 0)) with h | ⟨p, hp, heq⟩
  · rw [h]
  · rw [heq]
    rcases foldl_dictInsert_keys _ [] p hp with ⟨q, hq, _⟩ | ⟨q, hq, heq2⟩
    · cases hq
    · have h1 := le_randint 1 10 env.extR1Pick
      have h2 := le_randint 10 20 env.extR2Pick
      rcases (by simpa using hq :
          q = (0, 50) ∨ q = (randint 1 10 env.extR1Pick, 45) ∨
          q = (randint 10 20 env.extR2Pick, 5)) with rfl | rfl | rfl
      · rw [heq2]
      · rw [heq2]; simpa using by linarith
      · rw [heq2]; simpa using by linarith

/-- C10: every `Memory` request that supplies a non-None `address`
argument raises unconditionally, on every execution platform, so no
address-constrained Memory operand can be constructed through the public
constructor. -/
theorem memory_address_always_rejected (args : MemArgs) (env : MemEnv)
    (h : args.address.isSome = true) :
    ∃ e, memoryInit args env = .error e := by
  unfold memoryInit
  simp only [h, if_true]
  split
  · exact ⟨_, rfl⟩
  · exact ⟨_, rfl⟩

/-- C10 witness: concrete rejected requests on a non-baremetal platform
and on the baremetal platform. -/
theorem memory_address_always_rejected_witness :
    (∃ e, memoryInit { address := some 0x1000 } {} = .error e) ∧
    (∃ e, memoryInit { address := some 0x1000 }
      { execution_platform := "baremetal" } = .error e) :=
  ⟨memory_address_always_rejected _ _ rfl, memory_address_always_rejected _ _ rfl⟩

/-- C7: `alignment_bits` defaults to the page class's natural alignment
(12 for 4 KiB, 21 for 2 MiB); a supplied value below the natural alignment
of the requested class fails, and in particular a 4 KiB `allocate_page`
request with `alignment_bits = 8` fails. -/
theorem alignment_defaults_and_minimum :
    resolveAlignmentBits PageSize.S4K none = .ok (some 12) ∧
    resolveAlignmentBits PageSize.S2M none = .ok (some 21) ∧
    (∀ a : Nat, a < 12 → ∃ e, resolveAlignmentBits PageSize.S4K (some a) = .error e) ∧
    (∀ a : Nat, a < 21 → ∃ e, resolveAlignmentBits PageSize.S2M (some a) = .error e) ∧
    (∀ (mmu : MMUCtx) (paPool : List MemInterval) (args : PageArgs) (r : PageRand),
      args.size = some PageSize.S4K → args.alignment_bits = some 8 →
      ∃ e, allocatePage mmu paPool args r = .error e) := by
  refine ⟨rfl, rfl, ?_, ?_, ?_⟩
  · intro a ha
    unfold resolveAlignmentBits
    dsimp only
    rw [if_pos ⟨rfl, ha⟩]
    exact ⟨_, rfl⟩
  · intro a ha
    unfold resolveAlignmentBits
    dsimp only
    rw [if_neg, if_pos ⟨rfl, ha⟩]
    · exact ⟨_, rfl⟩
    · rintro ⟨h1, _⟩; cases h1
  · intro mmu paPool args r hs ha
    unfold allocatePage
    rw [hs, ha]
    simp only [validateSize, reduceIte, resolveAlignmentBits]
    exact ⟨_, rfl⟩

/-- C7 witness: the insufficient-alignment resolution and a concrete
failing 4 KiB call with 8-bit alignment. -/
theorem alignment_defaults_and_minimum_witness :
    (∃ e, resolveAlignmentBits PageSize.S4K (some 8) = .error e) ∧
    (∃ e, allocatePage ⟨"m0", "EL1", [⟨0, 0x100000⟩], [], [], ⟨[], [], [], []⟩⟩
      [⟨0, 0x100000⟩]
      { size := some PageSize.S4K, alignment_bits := some 8,
        page_type := some PageType.data } {} = .error e) :=
  ⟨alignment_defaults_and_minimum.2.2.1 8 (by omega),
   alignment_defaults_and_minimum.2.2.2.2 _ _ _ _ rfl rfl⟩

/-- C4 counterexample: with one recorded page covering `[0x1000, 0x2000)`,
`is_allocated(0x1800, 0x1000)` returns true although no recorded page
covers the requested span `[0x1800, 0x2800)`. -/
theorem is_allocated_true_without_cover :
    is_allocated [⟨0x1000, 0x5000, 0x1000, PageType.data, Perms.rwx, Cacheable.wb,
      Shareable.shareNone, "EL1", [], false⟩] 0x1800 0x1000 = true ∧
    ([⟨0x1000, 0x5000, 0x1000, PageType.data, Perms.rwx, Cacheable.wb,
      Shareable.shareNone, "EL1", [], false⟩] : List Page).all
      (fun p => !coversSpan p 0x1800 0x1000) = true := by
  exact ⟨by decide, by decide⟩

/-- C4 amended: `is_allocated(va, size)` returns true iff some recorded
page's address range intersects the requested span `[va, va + size)` —
shares at least one address with it — not only when a page covers the
whole span. -/
theorem is_allocated_iff_intersects (pages : List Page) (va_addr size : Int)
    (hsz : 1 ≤ size) (hp : ∀ p ∈ pages, 1 ≤ p.size) :
    is_allocated pages va_addr size = true ↔
    ∃ p ∈ pages, ∃ a : Int, p.va ≤ a ∧ a ≤ p.end_va ∧ va_addr ≤ a ∧ a < va_addr + size := by
  unfold is_allocated
  rw [List.any_eq_true]
  constructor
  · rintro ⟨p, hmem, hcond⟩
    rw [Bool.and_eq_true, decide_eq_true_eq, decide_eq_true_eq] at hcond
    obtain ⟨h1, h2⟩ := hcond
    have hps := hp p hmem
    refine ⟨p, hmem, max p.va va_addr, ?_, ?_, ?_, ?_⟩ <;> unfold Page.end_va at * <;> omega
  · rintro ⟨p, hmem, a, h1, h2, h3, h4⟩
    refine ⟨p, hmem, ?_⟩
    rw [Bool.and_eq_true, decide_eq_true_eq, decide_eq_true_eq]
    unfold Page.end_va at *
    constructor <;> omega

/-- C4 witness: the intersection characterization applied to a concrete
page list and span. -/
theorem is_allocated_iff_intersects_witness :
    is_allocated [⟨0x1000, 0x5000, 0x1000, PageType.data, Perms.rwx, Cacheable.wb,
      Shareable.shareNone, "EL1", [], false⟩] 0x1800 0x1000 = true ↔
    ∃ p ∈ [(⟨0x1000, 0x5000, 0x1000, PageType.data, Perms.rwx, Cacheable.wb,
      Shareable.shareNone, "EL1", [], false⟩ : Page)], ∃ a : Int,
      p.va ≤ a ∧ a ≤ p.end_va ∧ 0x1800 ≤ a ∧ a < 0x1800 + 0x1000 :=
  is_allocated_iff_intersects _ _ _ (by norm_num) (by decide)

set_option maxHeartbeats 1000000 in
/-- C5 counterexample: the underlying draw `randint(0, 100)` has 101
equally likely outcomes of which exactly 50 trigger a reuse attempt, so
the reuse ratio over the draw's outcomes is 50/101, not exactly 50%. -/
theorem reuse_probability_not_half :
    ((Finset.range 101).filter fun n => shouldReuse n = true).card * 2 ≠ 101 := by
  decide

set_option maxHeartbeats 1600000 in
/-- C5 amended: reuse of an existing shared block is attempted on exactly
50 of the 101 equally likely outcomes of the underlying `randint(0, 100)`
draw (probability 50/101), and a reused operand arises only when the
caller supplied no explicit name, no explicit address and no init value,
with the draw below the threshold. -/
theorem reuse_fraction_and_guard :
    (((Finset.range 101).filter fun n => shouldReuse n = true).card = 50) ∧
    (∀ (args : MemArgs) (env : MemEnv) (st : MemoryState),
      memoryInit args env = .ok st → st.reused_memory = true →
      shouldReuse (reuseDraw env.reusePick) = true ∧
      args.name = none ∧ args.address = none ∧ args.init_value = none) := by
  refine ⟨by decide, ?_⟩
  intro args env st h hr
  unfold memoryInit at h
  repeat' split at h
  all_goals try (dsimp only at h; repeat' split at h)
  all_goals try cases h
  all_goals first
    | assumption
    | (simp only [finishMemory, newSharedPath] at hr; exact Bool.noConfusion hr)

/-- C5 witness: the guard applied to a concrete reused construction. -/
theorem reuse_fraction_and_guard_witness :
    shouldReuse (reuseDraw 0) = true ∧ (none : Option String) = none ∧
    (none : Option Int) = none ∧ (none : Option Int) = none :=
  reuse_fraction_and_guard.2 { shared := true, byte_size := some 4 }
    { reusePick := 0, usedBlock := some ⟨"blkA", 8, 0, 0, "WB", true, false, 0, none⟩ }
    ⟨"mem1", "mem1", 4, true, "WB", none, ⟨"blkA", 8, 0, 0, "WB", true, false, 0, none⟩,
      0, false, 0, true, 0, 0⟩ rfl rfl

/-- C6 counterexample: a successful construction whose drawn alignment
value is 1 — the claim's 2-byte power-of-two alignment class — but whose
chosen offset is the odd value 1: the offset does not respect the claimed
power-of-two interpretation of the drawn value. -/
theorem alignment_class_counterexample :
    (memoryInit { shared := true, byte_size := some 1 }
      { alignPick := 10, reusePick := 50, extPick := 50, newOffPick := 1 }).toOption.map
      (fun st => (st.alignment, st.memory_block_offset)) = some (1, 1) := by
  rfl

/-- C6 amended: the alignment is drawn from the weighted policy
`{0: 10, 1: 30, 2: 60}` and the drawn value is used directly as a byte
count, not as a power-of-two class; the chosen offset is a multiple of the
drawn value only when it exceeds one (values 0 and 1 impose no
constraint), for fresh-block operands. -/
theorem alignment_draw_and_offset :
    (∀ pick : Nat, alignmentDraw pick =
      if pick % 100 < 10 then 0 else if pick % 100 < 40 then 1 else 2) ∧
    (∀ (args : MemArgs) (env : MemEnv) (st : MemoryState),
      memoryInit args env = .ok st → args.memory_block = none →
      args.alignment = none → st.reused_memory = false → 1 < st.alignment →
      st.alignment ∣ st.memory_block_offset) := by
  constructor
  · intro pick
    have h100 : pick % 100 < 100 := Nat.mod_lt _ (by omega)
    unfold alignmentDraw choiceW
    simp only [choicePick, List.foldr]
    norm_num
    split_ifs <;> omega
  · intro args env st h hb han hnr hgt
    unfold memoryInit at h
    dsimp only at h
    split at h
    · split at h <;> cases h
    · split at h
      · split at h
        · cases h
        · split at h
          · cases h
          · split at h
            · cases h
            · split at h
              · cases h
              · rename_i bs hvb
                split at h
                · split at h
                  · split at h
                    · rename_i blk hub
                      split at h
                      · cases h
                      · cases h
                        exfalso
                        simp only [finishMemory] at hnr
                        exact Bool.noConfusion hnr
                    · cases h
                      simp only [newSharedPath, finishMemory] at hgt ⊢
                      exact newSharedOffsetCalc_dvd _ _ _ hgt
                  · cases h
                    simp only [newSharedPath, finishMemory] at hgt ⊢
                    exact newSharedOffsetCalc_dvd _ _ _ hgt
                · cases h
                  simp only [finishMemory]
                  exact dvd_zero _
      · rename_i blk hblk
        rw [hb] at hblk
        exact Option.noConfusion hblk

/-- C6 witness: the draw characterization at pick 50 and the offset
divisibility on a concrete fresh-block construction with drawn value 2. -/
theorem alignment_draw_and_offset_witness :
    (alignmentDraw 50 = if 50 % 100 < 10 then 0 else if 50 % 100 < 40 then 1 else 2) ∧
    ((⟨"mem1", "mem1", 8, false, "WB", none, ⟨"mem1", 8, 0, 0, "WB", false, false, 2, none⟩,
      0, false, 2, false, 0, 0⟩ : MemoryState).alignment ∣
     (⟨"mem1", "mem1", 8, false, "WB", none, ⟨"mem1", 8, 0, 0, "WB", false, false, 2, none⟩,
      0, false, 2, false, 0, 0⟩ : MemoryState).memory_block_offset) :=
  ⟨alignment_draw_and_offset.1 50,
   alignment_draw_and_offset.2 {} { alignPick := 50 }
     ⟨"mem1", "mem1", 8, false, "WB", none, ⟨"mem1", 8, 0, 0, "WB", false, false, 2, none⟩,
      0, false, 2, false, 0, 0⟩ rfl rfl rfl rfl (by decide)⟩

/-- C3: every successfully constructed Memory operand, on every allocation
path, satisfies the containment invariant: the block offset is nonnegative
and offset plus operand byte size never exceeds the backing block's byte
size; the constructed value is immutable, so the invariant holds at every
later observation point. -/
theorem memory_operand_containment (args : MemArgs) (env : MemEnv) (st : MemoryState)
    (h : memoryInit args env = .ok st) :
    0 ≤ st.memory_block_offset ∧
    st.memory_block_offset + st.byte_size ≤ st.memory_block.byte_size := by
  unfold memoryInit at h
  dsimp only at h
  split at h
  · split at h <;> cases h
  · split at h
    · split at h
      · cases h
      · split at h
        · cases h
        · split at h
          · cases h
          · split at h
            · cases h
            · rename_i bs hvb
              have hbs := validByteSize_pos hvb
              split at h
              · split at h
                · split at h
                  · rename_i blk hub
                    split at h
                    · cases h
                    · rename_i hble
                      cases h
                      simp only [finishMemory]
                      exact reuseOffsetCalc_bounds blk bs _ _ (by omega) (by omega)
                  · cases h
                    simp only [newSharedPath, finishMemory]
                    have hext := byteSizeExtension_nonneg env
                    have hbnd := newSharedOffsetCalc_bounds (bs + byteSizeExtension env - bs)
                      (memAlignment args.alignment env.alignPick) env.newOffPick (by linarith)
                    constructor
                    · exact hbnd.1
                    · linarith [hbnd.2]
                · cases h
                  simp only [newSharedPath, finishMemory]
                  have hext := byteSizeExtension_nonneg env
                  have hbnd := newSharedOffsetCalc_bounds (bs + byteSizeExtension env - bs)
                    (memAlignment args.alignment env.alignPick) env.newOffPick (by linarith)
                  constructor
                  · exact hbnd.1
                  · linarith [hbnd.2]
              · cases h
                simp only [finishMemory]
                omega
    · rename_i blk hblk
      split at h
      · cases h
      · split at h
        · cases h
        · split at h
          · cases h
          · rename_i bs0 hbs0
            split at h
            · cases h
            · split at h
              · cases h
              · split at h
                · cases h
                · split at h
                  · cases h
                  · split at h
                    · cases h
                    · split at h
                      · cases h
                      · rename_i bs hvb
                        have hbseq := validByteSize_some hvb
                        cases h
                        simp only [finishMemory]
                        omega

/-- C3 witness: the invariant on a concrete default construction. -/
theorem memory_operand_containment_witness :
    0 ≤ (⟨"mem1", "mem1", 8, false, "WB", none,
        ⟨"mem1", 8, 0, 0, "WB", false, false, 0, none⟩,
        0, false, 0, false, 0, 0⟩ : MemoryState).memory_block_offset ∧
    (⟨"mem1", "mem1", 8, false, "WB", none,
        ⟨"mem1", 8, 0, 0, "WB", false, false, 0, none⟩,
        0, false, 0, false, 0, 0⟩ : MemoryState).memory_block_offset +
      (⟨"mem1", "mem1", 8, false, "WB", none,
        ⟨"mem1", 8, 0, 0, "WB", false, false, 0, none⟩,
        0, false, 0, false, 0, 0⟩ : MemoryState).byte_size ≤
      (⟨"mem1", "mem1", 8, false, "WB", none,
        ⟨"mem1", 8, 0, 0, "WB", false, false, 0, none⟩,
        0, false, 0, false, 0, 0⟩ : MemoryState).memory_block.byte_size :=
  memory_operand_containment {} {}
    ⟨"mem1", "mem1", 8, false, "WB", none,
      ⟨"mem1", 8, 0, 0, "WB", false, false, 0, none⟩,
      0, false, 0, false, 0, 0⟩ rfl

/-- A placeholder page used only as the default of list indexing in
theorem statements. -/
def defaultPage : Page :=
  ⟨0, 0, 0, PageType.code, Perms.rwx, Cacheable.wb, Shareable.shareNone, "", [], false⟩

theorem getD_map_range {α : Type} (f : Nat → α) (d : α) {n i : Nat} (hi : i < n) :
    ((List.range n).map f).getD i d = f i := by
  rw [List.getD_eq_getElem?_getD, List.getElem?_map, List.getElem?_range hi]
  rfl

theorem validateSize_ok {s : Option PageSize} {pick : Nat} {sz : PageSize}
    (h : validateSize s pick = .ok sz) : sz = PageSize.S4K ∨ sz = PageSize.S2M := by
  cases s with
  | none =>
      unfold validateSize at h
      dsimp only at h
      injection h with h1
      subst h1
      split
      · left; rfl
      · right; rfl
  | some s0 =>
      unfold validateSize at h
      dsimp only at h
      split at h
      · injection h with h1
        subst h1
        assumption
      · cases h

theorem allocRegions_fields {mmu : MMUCtx} {paPool : List MemInterval} {v : Bool}
    {fs : Int} {ab : Option Nat} {pt : PageType} {r : PageRand}
    {va pa : Int} {mmu1 : MMUCtx} {pp1 : List MemInterval}
    (h : allocRegions mmu paPool v fs ab pt r = .ok (va, pa, mmu1, pp1)) :
    mmu1.pages = mmu.pages ∧ mmu1.byType = mmu.byType ∧
    mmu1.execution_context = mmu.execution_context ∧
    mmu1.mmu_name = mmu.mmu_name := by
  unfold allocRegions at h
  split at h
  · split at h
    · cases h
    · split at h
      · cases h
      · split at h
        · cases h
        · cases h
          simp [mapVaToPa]
  · split at h
    · cases h
    · split at h
      · cases h
      · cases h
        simp [mapVaToPa]

theorem ByType_get_append (bt : ByType) (pt : PageType) (ps : List Page) :
    (bt.append pt ps).get pt = bt.get pt ++ ps ∧
    ∀ pt2, pt2 ≠ pt → (bt.append pt ps).get pt2 = bt.get pt2 := by
  cases pt <;>
    refine ⟨rfl, ?_⟩ <;>
    intro pt2 hne <;>
    cases pt2 <;>
    first
      | rfl
      | exact absurd rfl hne

theorem mkPagesResult_retPages (mmu1 : MMUCtx) (paPool1 : List MemInterval)
    (vaStart paStart sizeBytes : Int) (n : Nat) (pt : PageType) (perms : Perms)
    (c : Cacheable) (s : Shareable) (attrs : List (String × String)) :
    retPages (mkPagesResult mmu1 paPool1 vaStart paStart sizeBytes n pt perms c s attrs).ret =
    (List.range n).map
      (fun i => mkPage vaStart paStart sizeBytes i pt perms c s mmu1.execution_context attrs) := by
  unfold mkPagesResult
  dsimp only
  match n with
  | 0 => rfl
  | 1 => rfl
  | (k+2) => rfl

theorem mkPagesResult_mmu (mmu1 : MMUCtx) (paPool1 : List MemInterval)
    (vaStart paStart sizeBytes : Int) (n : Nat) (pt : PageType) (perms : Perms)
    (c : Cacheable) (s : Shareable) (attrs : List (String × String)) :
    (mkPagesResult mmu1 paPool1 vaStart paStart sizeBytes n pt perms c s attrs).mmu.pages =
      mmu1.pages ++ (List.range n).map
        (fun i => mkPage vaStart paStart sizeBytes i pt perms c s mmu1.execution_context attrs) ∧
    (mkPagesResult mmu1 paPool1 vaStart paStart sizeBytes n pt perms c s attrs).mmu.byType =
      mmu1.byType.append pt ((List.range n).map
        (fun i => mkPage vaStart paStart sizeBytes i pt perms c s mmu1.execution_context attrs)) ∧
    (mkPagesResult mmu1 paPool1 vaStart paStart sizeBytes n pt perms c s attrs).paPool = paPool1 := by
  unfold mkPagesResult
  dsimp only
  exact ⟨rfl, rfl, rfl⟩

theorem mkPagesResult_ret_shape (mmu1 : MMUCtx) (paPool1 : List MemInterval)
    (vaStart paStart sizeBytes : Int) (n : Nat) (pt : PageType) (perms : Perms)
    (c : Cacheable) (s : Shareable) (attrs : List (String × String)) :
    (n = 1 → ∃ p, (mkPagesResult mmu1 paPool1 vaStart paStart sizeBytes n pt perms c s attrs).ret =
      PageRet.single p) ∧
    (n ≠ 1 → (mkPagesResult mmu1 paPool1 vaStart paStart sizeBytes n pt perms c s attrs).ret =
      PageRet.multiple (retPages
        (mkPagesResult mmu1 paPool1 vaStart paStart sizeBytes n pt perms c s attrs).ret)) := by
  constructor
  · intro h1
    subst h1
    exact ⟨_, rfl⟩
  · intro h1
    match n, h1 with
    | 0, _ => rfl
    | (k+2), _ => rfl

/-- C8: every successful `allocate_page` call with `sequential_page_count
= n` produces exactly `n` page records whose virtual and physical
addresses are `va_start + i*size` and `pa_start + i*size`, appends each to
the context's page list and to its per-type index, and returns the single
record when `n = 1`, the ordered list otherwise. -/
theorem allocate_page_sequential (mmu : MMUCtx) (paPool : List MemInterval)
    (args : PageArgs) (r : PageRand) (res : AllocPageResult)
    (h : allocatePage mmu paPool args r = .ok res) :
    ∃ (vaStart paStart szBytes : Int) (pt : PageType),
      (szBytes = 0x1000 ∨ szBytes = 0x200000) ∧
      (retPages res.ret).length = args.sequential_page_count ∧
      (∀ i : Nat, i < args.sequential_page_count →
        ((retPages res.ret).getD i defaultPage).va = vaStart + (i : Int) * szBytes ∧
        ((retPages res.ret).getD i defaultPage).pa = paStart + (i : Int) * szBytes) ∧
      res.mmu.pages = mmu.pages ++ retPages res.ret ∧
      res.mmu.byType.get pt = mmu.byType.get pt ++ retPages res.ret ∧
      (∀ pt2, pt2 ≠ pt → res.mmu.byType.get pt2 = mmu.byType.get pt2) ∧
      (args.sequential_page_count = 1 → ∃ p, res.ret = PageRet.single p) ∧
      (args.sequential_page_count ≠ 1 →
        res.ret = PageRet.multiple (retPages res.ret)) := by
  unfold allocatePage at h
  split at h
  · cases h
  · rename_i size hvs
    split at h
    · cases h
    · rename_i ab hra
      split at h
      · cases h
      · rename_i pt hpt
        dsimp only at h
        split at h
        · cases h
        · rename_i va pa mmu1 pp1 har
          cases h
          have hf := allocRegions_fields har
          have hrp := mkPagesResult_retPages mmu1 pp1 va pa size.value
            args.sequential_page_count pt (args.permissions.getD Perms.rwx)
            (args.cacheable.getD Cacheable.wb) (args.shareable.getD Shareable.shareNone)
            (args.custom_attributes.getD [])
          have hm := mkPagesResult_mmu mmu1 pp1 va pa size.value
            args.sequential_page_count pt (args.permissions.getD Perms.rwx)
            (args.cacheable.getD Cacheable.wb) (args.shareable.getD Shareable.shareNone)
            (args.custom_attributes.getD [])
          have hshape := mkPagesResult_ret_shape mmu1 pp1 va pa size.value
            args.sequential_page_count pt (args.permissions.getD Perms.rwx)
            (args.cacheable.getD Cacheable.wb) (args.shareable.getD Shareable.shareNone)
            (args.custom_attributes.getD [])
          have hbt := ByType_get_append mmu1.byType pt ((List.range args.sequential_page_count).map
            (fun i => mkPage va pa size.value i pt (args.permissions.getD Perms.rwx)
              (args.cacheable.getD Cacheable.wb) (args.shareable.getD Shareable.shareNone)
              mmu1.execution_context (args.custom_attributes.getD [])))
          refine ⟨va, pa, size.value, pt, ?_, ?_, ?_, ?_, ?_, ?_,
            hshape.1, hshape.2⟩
          · rcases validateSize_ok hvs with h4 | h4 <;> rw [h4]
            · left; rfl
            · right; rfl
          · rw [hrp]
            simp
          · intro i hi
            rw [hrp, getD_map_range _ _ hi]
            exact ⟨rfl, rfl⟩
          · rw [hm.1, hrp, hf.1]
          · rw [hm.2.1, hrp, hbt.1, hf.2.1]
          · intro pt2 hne
            rw [hm.2.1, hbt.2 pt2 hne, hf.2.1]

/-- A concrete MMU context used by the sequential-allocation witness. -/
def c8mmu : MMUCtx :=
  ⟨"m0", "EL1", [⟨0, 0x100000000⟩], [], [], ⟨[], [], [], []⟩⟩

/-- The coordinator PA pool of the sequential-allocation witness. -/
def c8paPool : List MemInterval :=
  [⟨0x100000, 0x100000⟩]

/-- The request of the sequential-allocation witness: two sequential
4 KiB code pages. -/
def c8args : PageArgs :=
  { size := some PageSize.S4K, page_type := some PageType.code,
    sequential_page_count := 2 }

/-- First page produced by the sequential-allocation witness. -/
def c8page0 : Page :=
  ⟨0, 0x100000, 0x1000, PageType.code, Perms.rwx, Cacheable.wb,
    Shareable.shareNone, "EL1", [], false⟩

/-- Second page produced by the sequential-allocation witness. -/
def c8page1 : Page :=
  ⟨0x1000, 0x101000, 0x1000, PageType.code, Perms.rwx, Cacheable.wb,
    Shareable.shareNone, "EL1", [], false⟩

/-- The full result of the sequential-allocation witness call. -/
def c8res : AllocPageResult :=
  ⟨⟨"m0", "EL1", [⟨0x2000, 0xFFFFE000⟩], [(⟨0, 0x2000⟩, PageType.code)],
    [c8page0, c8page1], ⟨[c8page0, c8page1], [], [], []⟩⟩,
   [⟨0x102000, 0xFE000⟩], PageRet.multiple [c8page0, c8page1]⟩

/-- C8 witness: the sequential-allocation facts on a concrete two-page
call. -/
theorem allocate_page_sequential_witness :
    ∃ (vaStart paStart szBytes : Int) (pt : PageType),
      (szBytes = 0x1000 ∨ szBytes = 0x200000) ∧
      (retPages c8res.ret).length = c8args.sequential_page_count ∧
      (∀ i : Nat, i < c8args.sequential_page_count →
        ((retPages c8res.ret).getD i defaultPage).va = vaStart + (i : Int) * szBytes ∧
        ((retPages c8res.ret).getD i defaultPage).pa = paStart + (i : Int) * szBytes) ∧
      c8res.mmu.pages = c8mmu.pages ++ retPages c8res.ret ∧
      c8res.mmu.byType.get pt = c8mmu.byType.get pt ++ retPages c8res.ret ∧
      (∀ pt2, pt2 ≠ pt → c8res.mmu.byType.get pt2 = c8mmu.byType.get pt2) ∧
      (c8args.sequential_page_count = 1 → ∃ p, c8res.ret = PageRet.single p) ∧
      (c8args.sequential_page_count ≠ 1 →
        c8res.ret = PageRet.multiple (retPages c8res.ret)) :=
  allocate_page_sequential c8mmu c8paPool c8args {} c8res (by rfl)

theorem mkPagesResult_pools (mmu1 : MMUCtx) (paPool1 : List MemInterval)
    (vaStart paStart sizeBytes : Int) (n : Nat) (pt : PageType) (perms : Perms)
    (c : Cacheable) (s : Shareable) (attrs : List (String × String)) :
    (mkPagesResult mmu1 paPool1 vaStart paStart sizeBytes n pt perms c s attrs).mmu.unmapped =
      mmu1.unmapped ∧
    (mkPagesResult mmu1 paPool1 vaStart paStart sizeBytes n pt perms c s attrs).paPool =
      paPool1 := by
  unfold mkPagesResult
  dsimp only
  exact ⟨rfl, rfl⟩

theorem findVaEqPa_ok {vas pas : List MemInterval} {sizeBytes : Int} {ab : Option Nat}
    {r1 r2 : Nat} {va pa sz : Int}
    (h : findVaEqPaUnmappedRegion vas pas sizeBytes ab r1 r2 = .ok (va, pa, sz)) :
    pa = va ∧ sz = sizeBytes := by
  unfold findVaEqPaUnmappedRegion at h
  split at h
  · cases h
  · split at h
    · cases h
    · dsimp only at h
      injection h with h1
      have e1 := congrArg (fun t : Int × Int × Int => t.1) h1
      have e2 := congrArg (fun t : Int × Int × Int => t.2.1) h1
      have e3 := congrArg (fun t : Int × Int × Int => t.2.2) h1
      dsimp only at e1 e2 e3
      exact ⟨e2.symm.trans e1, e3.symm⟩

theorem allocRegions_vaEqPa {mmu : MMUCtx} {paPool : List MemInterval}
    {fs : Int} {ab : Option Nat} {pt : PageType} {r : PageRand}
    {va pa : Int} {mmu1 : MMUCtx} {pp1 : List MemInterval}
    (h : allocRegions mmu paPool true fs ab pt r = .ok (va, pa, mmu1, pp1)) :
    pa = va ∧
    removeRegion mmu.unmapped va fs = .ok mmu1.unmapped ∧
    removeRegion paPool va fs = .ok pp1 := by
  unfold allocRegions at h
  rw [if_pos rfl] at h
  split at h
  · cases h
  · rename_i vaS paS sz hfind
    obtain ⟨hpa, hsz⟩ := findVaEqPa_ok hfind
    split at h
    · cases h
    · rename_i u1 hrem1
      split at h
      · cases h
      · rename_i p1 hrem2
        cases h
        subst hpa
        subst hsz
        exact ⟨rfl, by simpa [mapVaToPa] using hrem1, hrem2⟩

theorem matchingRegions_mem {vas pas : List MemInterval} {sizeBytes : Int} {reg : Int × Int}
    (h : reg ∈ matchingRegions vas pas sizeBytes) :
    ∃ v ∈ vas, ∃ q ∈ pas, overlapRegion v q sizeBytes = some reg := by
  unfold matchingRegions at h
  rw [List.mem_flatMap] at h
  obtain ⟨v, hv, h2⟩ := h
  rw [List.mem_filterMap] at h2
  obtain ⟨q, hq, h3⟩ := h2
  exact ⟨v, hv, q, hq, h3⟩

theorem suitableIntervals_nil {regions : List (Int × Int)} {sizeBytes : Int} {b : Nat}
    (h : ∀ reg ∈ regions, suitCheck reg.1 reg.2 sizeBytes b = none) :
    suitableIntervals regions sizeBytes (some b) = [] := by
  unfold suitableIntervals
  dsimp only
  rw [List.filterMap_eq_nil_iff]
  intro reg hreg
  rw [h reg hreg]
  rfl

theorem findVaEqPa_none_suitable {vas pas : List MemInterval} {fullSz : Int} {b : Nat}
    (r1 r2 : Nat)
    (hfit : ∀ v ∈ vas, ∀ q ∈ pas, ∀ rs rsz : Int,
      overlapRegion v q fullSz = some (rs, rsz) → suitCheck rs rsz fullSz b = none) :
    ∃ e, findVaEqPaUnmappedRegion vas pas fullSz (some b) r1 r2 = .error e := by
  unfold findVaEqPaUnmappedRegion
  rcases hm : matchingRegions vas pas fullSz with _ | ⟨m, ms⟩
  · exact ⟨_, rfl⟩
  · have hnil : suitableIntervals (m :: ms) fullSz (some b) = [] := by
      apply suitableIntervals_nil
      intro reg hreg
      rw [← hm] at hreg
      obtain ⟨v, hv, q, hq, hover⟩ := matchingRegions_mem hreg
      exact hfit v hv q hq reg.1 reg.2 (by rw [hover])
    dsimp only
    rw [hnil]
    exact ⟨_, rfl⟩

/-- Natural alignment of a page class in bits. -/
def naturalAlignmentBits : PageSize → Nat
  | .S4K => 12
  | .S2M => 21
  | .S1G => 30

/-- C2: whenever a VA_eq_PA `allocate_page` call succeeds, every returned
page has `va = pa` and the allocated identity range is no longer free in
either the context's unmapped VA pool or the coordinator's unmapped PA
pool; and when no intersection of a free VA span and a free PA span
admits an aligned fit of the full size, the call fails. -/
theorem va_eq_pa_correct :
    (∀ (mmu : MMUCtx) (paPool : List MemInterval) (args : PageArgs) (r : PageRand)
      (res : AllocPageResult), args.VA_eq_PA = true →
      disjointB mmu.unmapped = true → disjointB paPool = true →
      allocatePage mmu paPool args r = .ok res →
      (∀ p ∈ retPages res.ret, p.va = p.pa) ∧
      ∃ vaStart fullSz : Int, 0 < fullSz ∧
        (∀ p ∈ retPages res.ret, vaStart ≤ p.va ∧ p.va + p.size ≤ vaStart + fullSz) ∧
        (∀ a : Int, vaStart ≤ a → a < vaStart + fullSz →
          freeAt res.mmu.unmapped a = false ∧ freeAt res.paPool a = false)) ∧
    (∀ (mmu : MMUCtx) (paPool : List MemInterval) (args : PageArgs) (r : PageRand)
      (szp : PageSize), args.VA_eq_PA = true → args.size = some szp →
      args.alignment_bits = none →
      (∀ v ∈ mmu.unmapped, ∀ q ∈ paPool, ∀ rs rsz : Int,
        overlapRegion v q (if 1 < args.sequential_page_count then
          szp.value * (args.sequential_page_count : Int) else szp.value) = some (rs, rsz) →
        suitCheck rs rsz (if 1 < args.sequential_page_count then
          szp.value * (args.sequential_page_count : Int) else szp.value)
          (naturalAlignmentBits szp) = none) →
      ∃ e, allocatePage mmu paPool args r = .error e) := by
  constructor
  · intro mmu paPool args r res hva hd1 hd2 h
    unfold allocatePage at h
    split at h
    · cases h
    · rename_i size hvs
      split at h
      · cases h
      · rename_i ab hra
        split at h
        · cases h
        · rename_i pt hpt
          dsimp only at h
          rw [hva] at h
          split at h
          · cases h
          · rename_i va pa mmu1 pp1 har
            cases h
            obtain ⟨hpa, hrem1, hrem2⟩ := allocRegions_vaEqPa har
            subst hpa
            have hrp := mkPagesResult_retPages mmu1 pp1 pa pa size.value
              args.sequential_page_count pt (args.permissions.getD Perms.rwx)
              (args.cacheable.getD Cacheable.wb) (args.shareable.getD Shareable.shareNone)
              (args.custom_attributes.getD [])
            have hpool := mkPagesResult_pools mmu1 pp1 pa pa size.value
              args.sequential_page_count pt (args.permissions.getD Perms.rwx)
              (args.cacheable.getD Cacheable.wb) (args.shareable.getD Shareable.shareNone)
              (args.custom_attributes.getD [])
            have hsv : size.value = 4096 ∨ size.value = 2097152 := by
              rcases validateSize_ok hvs with rfl | rfl
              · left; rfl
              · right; rfl
            have hsv0 : (0:Int) < size.value := by
              rcases hsv with hv | hv <;> rw [hv] <;> norm_num
            constructor
            · intro p hp
              rw [hrp] at hp
              obtain ⟨i, hi, heq⟩ := List.mem_map.mp hp
              rw [← heq]
              rfl
            · refine ⟨pa, (if 1 < args.sequential_page_count then
                size.value * (args.sequential_page_count : Int) else size.value), ?_, ?_, ?_⟩
              · split
                · rename_i hn
                  have hn0 : (0:Int) < (args.sequential_page_count : Int) := by
                    exact_mod_cast (by omega : 0 < args.sequential_page_count)
                  exact mul_pos hsv0 hn0
                · exact hsv0
              · intro p hp
                rw [hrp] at hp
                obtain ⟨i, hi, heq⟩ := List.mem_map.mp hp
                rw [List.mem_range] at hi
                rw [← heq]
                unfold mkPage
                dsimp only
                have hi0 : (0:Int) ≤ (i : Int) := Int.ofNat_nonneg i
                constructor
                · nlinarith
                · split
                  · rename_i hn
                    have hin : ((i:Int) + 1) ≤ (args.sequential_page_count : Int) := by
                      exact_mod_cast hi
                    nlinarith
                  · rename_i hn
                    have hiz : i = 0 := by omega
                    subst hiz
                    simp
              · intro a ha1 ha2
                rw [hpool.1, hpool.2]
                exact ⟨removeRegion_not_free hd1 hrem1 a ha1 ha2,
                       removeRegion_not_free hd2 hrem2 a ha1 ha2⟩
  · intro mmu paPool args r szp hva hsz hab hfit
    unfold allocatePage
    rw [hsz]
    unfold validateSize
    dsimp only
    by_cases hszok : szp = PageSize.S4K ∨ szp = PageSize.S2M
    · rw [if_pos hszok]
      dsimp only
      rw [hab]
      have hres : resolveAlignmentBits szp none = .ok (some (naturalAlignmentBits szp)) := by
        rcases hszok with rfl | rfl <;> rfl
      rw [hres]
      dsimp only
      rcases hpt : args.page_type with _ | pt
      · exact ⟨_, rfl⟩
      · dsimp only
        rw [hva]
        unfold allocRegions
        rw [if_pos rfl]
        obtain ⟨e, he⟩ := findVaEqPa_none_suitable r.vaR1 r.vaR2 hfit
        rw [he]
        exact ⟨_, rfl⟩
    · rw [if_neg hszok]
      exact ⟨_, rfl⟩

/-- Context of the identity-allocation witness. -/
def c2mmu : MMUCtx := ⟨"m0", "EL1", [⟨0x1000, 0x2000⟩], [], [], ⟨[], [], [], []⟩⟩

/-- Coordinator PA pool of the identity-allocation witness. -/
def c2paPool : List MemInterval := [⟨0x1000, 0x2000⟩]

/-- Request of the identity-allocation witness. -/
def c2args : PageArgs :=
  { size := some PageSize.S4K, page_type := some PageType.data, VA_eq_PA := true }

/-- Page produced by the identity-allocation witness. -/
def c2page : Page :=
  ⟨0x1000, 0x1000, 0x1000, PageType.data, Perms.rwx, Cacheable.wb,
    Shareable.shareNone, "EL1", [], false⟩

/-- Result of the identity-allocation witness call. -/
def c2res : AllocPageResult :=
  ⟨⟨"m0", "EL1", [⟨0x2000, 0x1000⟩], [(⟨0x1000, 0x1000⟩, PageType.data)],
    [c2page], ⟨[], [c2page], [], []⟩⟩, [⟨0x2000, 0x1000⟩], PageRet.single c2page⟩

/-- Context whose pool shares no address with the witness PA pool. -/
def c2mmuFail : MMUCtx := ⟨"m1", "EL1", [⟨0x1000, 0x1000⟩], [], [], ⟨[], [], [], []⟩⟩

/-- C2 witness: the identity facts on a concrete successful call, and a
concrete failing call whose pools have no VA=PA intersection. -/
theorem va_eq_pa_correct_witness :
    ((∀ p ∈ retPages c2res.ret, p.va = p.pa) ∧
      ∃ vaStart fullSz : Int, 0 < fullSz ∧
        (∀ p ∈ retPages c2res.ret, vaStart ≤ p.va ∧ p.va + p.size ≤ vaStart + fullSz) ∧
        (∀ a : Int, vaStart ≤ a → a < vaStart + fullSz →
          freeAt c2res.mmu.unmapped a = false ∧ freeAt c2res.paPool a = false)) ∧
    (∃ e, allocatePage c2mmuFail [⟨0x10000, 0x1000⟩]
      { size := some PageSize.S4K, page_type := some PageType.data, VA_eq_PA := true }
      {} = .error e) :=
  ⟨va_eq_pa_correct.1 c2mmu c2paPool c2args {} c2res rfl (by decide) (by decide) (by rfl),
   va_eq_pa_correct.2 c2mmuFail [⟨0x10000, 0x1000⟩]
     { size := some PageSize.S4K, page_type := some PageType.data, VA_eq_PA := true }
     {} PageSize.S4K rfl rfl rfl
     (by
       intro v hv q hq rs rsz hover
       rcases List.mem_singleton.mp hv with rfl
       rcases List.mem_singleton.mp hq with rfl
       have h2 : (none : Option (Int × Int)) = some (rs, rsz) := hover
       exact Option.noConfusion h2)⟩

/-- How one MMU context changes under a successful cross-core allocation
with common physical start `paStart`: exactly one new page is appended,
carrying the fixed policy (a single 2 MiB data page, read+write+execute,
write-back, non-shareable, cross-core) and the common `pa`, while its `va`
was carved out of this context's own unmapped pool. -/
def crossCoreCtxRel (paStart : Int) (c c' : MMUCtx) : Prop :=
  ∃ va : Int,
    c'.pages = c.pages ++ [⟨va, paStart, 0x200000, PageType.data, Perms.rwx,
      Cacheable.wb, Shareable.shareNone, c.execution_context, [], true⟩] ∧
    (∀ a : Int, va ≤ a → a < va + 0x200000 →
      freeAt c.unmapped a = true ∧ freeAt c'.unmapped a = false)

theorem crossLoopMMUs_ok {paStart : Int} {mmus : List MMUCtx} {rs : List Nat}
    (hd : ∀ c ∈ mmus, disjointB c.unmapped = true)
    (h : (crossLoopMMUs paStart mmus rs).2.2 = none) :
    List.Forall₂ (crossCoreCtxRel paStart) mmus (crossLoopMMUs paStart mmus rs).1 := by
  induction mmus generalizing rs with
  | nil => exact List.Forall₂.nil
  | cons mmu rest ih =>
      unfold crossLoopMMUs at h ⊢
      dsimp only at h ⊢
      rcases hfr : findAndRemove mmu.unmapped 0x200000 (some 21) (draw2 rs).1 (draw2 rs).2.1
        with e | ⟨vaStart, vaSize, unmapped'⟩
      · rw [hfr] at h
        exact Option.noConfusion h
      · rw [hfr] at h
        dsimp only at h ⊢
        obtain ⟨hsz, hfree, hnfree⟩ := findAndRemove_ok hfr
        refine List.Forall₂.cons ⟨vaStart, ?_, ?_⟩ ?_
        · simp [mapVaToPa, mkCrossPage]
        · intro a ha1 ha2
          refine ⟨hfree a ha1 ha2, ?_⟩
          have hx := hnfree (hd mmu (List.mem_cons_self _ _)) a ha1 ha2
          simpa [mapVaToPa] using hx
        · exact ih (fun c hc => hd c (List.mem_cons_of_mem _ hc)) h

theorem crossLoopStates_ok {paStart : Int} {active : String}
    {states : List (String × List MMUCtx)} {rs : List Nat}
    (hd : ∀ s ∈ states, ∀ c ∈ s.2, disjointB c.unmapped = true)
    (h : (crossLoopStates paStart active states rs).2.2.2 = none) :
    List.Forall₂ (fun s s' : String × List MMUCtx =>
      s'.1 = s.1 ∧ List.Forall₂ (crossCoreCtxRel paStart) s.2 s'.2)
      states (crossLoopStates paStart active states rs).1 := by
  induction states generalizing active rs with
  | nil => exact List.Forall₂.nil
  | cons s rest ih =>
      obtain ⟨stateName, mmus⟩ := s
      unfold crossLoopStates at h ⊢
      dsimp only at h ⊢
      rcases hml : crossLoopMMUs paStart mmus rs with ⟨mmus', rs1, err⟩
      rw [hml] at h
      cases err with
      | some e =>
          dsimp only at h
          exact Option.noConfusion h
      | none =>
          dsimp only at h ⊢
          have hmm := crossLoopMMUs_ok (fun c hc => hd (stateName, mmus)
            (List.mem_cons_self _ _) c hc) (by rw [hml])
          rw [hml] at hmm
          have hih := ih (fun t ht c hc => hd t (List.mem_cons_of_mem _ ht) c hc) h
          refine List.Forall₂.cons ⟨rfl, hmm⟩ hih

/-- C9: every successful `allocate_cross_core_page` call reserves one PA
range from the coordinator and, for every context of every core, records
exactly one new page with the fixed policy — a single 2 MiB data page,
read+write+execute, write-back cacheable, non-shareable, marked
cross-core — whose `pa` equals the single reserved PA start, while each
context's `va` is carved independently from its own unmapped pool. -/
theorem cross_core_fixed_policy (m : Machine) (rs : List Nat)
    (hd : ∀ s ∈ m.states, ∀ c ∈ s.2, disjointB c.unmapped = true)
    (hok : (allocateCrossCorePage m rs).2 = none) :
    ∃ paStart paSize paPool1,
      findAndRemove m.paPool 0x200000 (some 21) (draw2 rs).1 (draw2 rs).2.1 =
        .ok (paStart, paSize, paPool1) ∧
      (allocateCrossCorePage m rs).1.paPool = paPool1 ∧
      List.Forall₂ (fun s s' : String × List MMUCtx =>
        s'.1 = s.1 ∧ List.Forall₂ (crossCoreCtxRel paStart) s.2 s'.2)
        m.states (allocateCrossCorePage m rs).1.states := by
  unfold allocateCrossCorePage at hok ⊢
  dsimp only at hok ⊢
  rcases hfr : findAndRemove m.paPool 0x200000 (some 21) (draw2 rs).1 (draw2 rs).2.1
    with e | ⟨paStart, paSize, paPool'⟩
  · rw [hfr] at hok
    exact Option.noConfusion hok
  · rw [hfr] at hok
    dsimp only at hok ⊢
    rcases hls : crossLoopStates paStart m.activeState m.states (draw2 rs).2.2
      with ⟨states', active', rs1, err⟩
    rw [hls] at hok
    cases err with
    | some e =>
        dsimp only at hok
        exact Option.noConfusion hok
    | none =>
        refine ⟨paStart, paSize, paPool', rfl, ?_, ?_⟩
        · rfl
        · have hst := crossLoopStates_ok hd (by rw [hls])
          rw [hls] at hst
          exact hst

/-- Machine of the cross-core success witness: two cores, each with one
context holding a large unmapped pool. -/
def c9machine : Machine :=
  ⟨[("core_0", [⟨"c0_el1", "EL1", [⟨0, 0x40000000⟩], [], [], ⟨[], [], [], []⟩⟩]),
    ("core_1", [⟨"c1_el1", "EL1", [⟨0x200000, 0x40000000⟩], [], [], ⟨[], [], [], []⟩⟩])],
   "core_0", [⟨0, 0x40000000⟩]⟩

/-- C9 witness: the fixed-policy facts on a concrete two-core machine. -/
theorem cross_core_fixed_policy_witness :
    ∃ paStart paSize paPool1,
      findAndRemove c9machine.paPool 0x200000 (some 21) (draw2 []).1 (draw2 []).2.1 =
        .ok (paStart, paSize, paPool1) ∧
      (allocateCrossCorePage c9machine []).1.paPool = paPool1 ∧
      List.Forall₂ (fun s s' : String × List MMUCtx =>
        s'.1 = s.1 ∧ List.Forall₂ (crossCoreCtxRel paStart) s.2 s'.2)
        c9machine.states (allocateCrossCorePage c9machine []).1.states :=
  cross_core_fixed_policy c9machine [] (by decide) (by rfl)

/-- Machine on which the cross-core VA reservation fails for the second
core: that core's only context has an empty unmapped pool. -/
def c1machine : Machine :=
  ⟨[("core_0", [⟨"c0_el1", "EL1", [⟨0, 0x40000000⟩], [], [], ⟨[], [], [], []⟩⟩]),
    ("core_1", [⟨"c1_el1", "EL1", [], [], [], ⟨[], [], [], []⟩⟩])],
   "core_0", [⟨0, 0x40000000⟩]⟩

/-- C1: `allocate_cross_core_page` does not restore the originally active
context on the error path.  On `c1machine` the active context is "core_0";
the VA reservation for core_1's context raises, the call propagates the
error, and the machine is left with "core_1" as the active context — the
restoring `set_active_state(orig_state)` sits inside the `try` block, so
it is skipped when the loop raises. -/
theorem cross_core_context_not_restored :
    c1machine.activeState = "core_0" ∧
    (allocateCrossCorePage c1machine []).2.isSome = true ∧
    (allocateCrossCorePage c1machine []).1.activeState = "core_1" :=
  ⟨rfl, rfl, rfl⟩
